import Mathlib

/-!
Shallow embedding of the piket-scheduler core: the data model of
src/models.py, the configuration validator of src/validation.py, and the
pool statistics, constraint model, tolerance search and vacation-release
fallback of src/solver.py.

Dates.  The Python code uses datetime.date, which is order-isomorphic to
the integers via toordinal.  We fix the epoch so that day 0 is a Monday and
model a date as the natural number of days since that epoch.  Then the
Python expression d.weekday() is d % 7 (Monday = 0 ... Sunday = 6), date
ordering is the Nat ordering, d + timedelta(days = 1) is d + 1, and the ISO
(year, week) pair of d corresponds one-to-one to d / 7, because ISO weeks
always run Monday through Sunday.

The external CP-SAT solver is modelled by an oracle (SolverOracle below)
that, for a configuration, a tolerance and a time limit, either produces a
variable assignment (the Python statuses OPTIMAL and FEASIBLE) or does not
(INFEASIBLE and UNKNOWN).  An oracle is sound when every assignment it
returns satisfies every hard constraint of the model that
_solve_with_tolerance builds for those inputs; hardConstraints below is the
complete conjunction of those constraints, including the constraints that
arise implicitly from the declared domains of the auxiliary integer
variables.  Error-message strings are modelled by inductive types carrying
exactly the numbers the corresponding Python f-strings interpolate.
Wall-clock measurements (solve_time_seconds) are not modelled.
-/

namespace Piket

abbrev Date := Nat

/-- Python date.weekday(): Monday = 0, ..., Saturday = 5, Sunday = 6. -/
def weekdayOf (d : Date) : Nat := d % 7

/-- Employee of src/models.py.  The forbidden_weekdays set is modelled as a
list, used only through membership. -/
structure Employee where
  name : String
  forbidden_weekdays : List Nat
  vacation_ranges : List (Date × Date)
  is_extra_weekend : Bool
deriving DecidableEq, Repr

/-- Employee.is_available of src/models.py: the weekday is not forbidden and
the date lies in no vacation range (ranges are inclusive). -/
def Employee.is_available (e : Employee) (d : Date) : Bool :=
  if e.forbidden_weekdays.contains (weekdayOf d) then false
  else if e.vacation_ranges.any (fun v => v.1 ≤ d && d ≤ v.2) then false
  else true

/-- FixedAssignment of src/models.py: a recurring weekly commitment. -/
structure FixedAssignment where
  day_of_week : Nat
  employee_name : String
deriving DecidableEq, Repr

/-- ScheduleConfig of src/models.py. -/
structure ScheduleConfig where
  start_date : Date
  end_date : Date
  employees : List Employee
  fixed_assignments : List FixedAssignment
  link_friday_saturday : Bool
deriving DecidableEq, Repr

/-- ScheduleConfig.get_all_dates: all dates from start_date to end_date
inclusive (empty when start_date > end_date, like the Python while loop). -/
def ScheduleConfig.get_all_dates (c : ScheduleConfig) : List Date :=
  List.range' c.start_date (c.end_date + 1 - c.start_date)

/-- ScheduleConfig.get_num_weeks: the number of distinct ISO weeks covered.
Under the Monday-epoch model the ISO (year, week) pair of d is determined by
d / 7, so the Python set of isocalendar pairs has the size of the
deduplicated list of week indices. -/
def ScheduleConfig.get_num_weeks (c : ScheduleConfig) : Nat :=
  ((c.get_all_dates.map (fun d => d / 7)).dedup).length

/-- ScheduleConfig.get_weekday_dates: Mon-Fri dates (WEEKDAYS = {0..4}). -/
def ScheduleConfig.get_weekday_dates (c : ScheduleConfig) : List Date :=
  c.get_all_dates.filter (fun d => weekdayOf d < 5)

/-- ScheduleConfig.get_weekend_dates: Sat+Sun dates (WEEKEND_DAYS = {5,6}). -/
def ScheduleConfig.get_weekend_dates (c : ScheduleConfig) : List Date :=
  c.get_all_dates.filter (fun d => 5 ≤ weekdayOf d)

/-- ScheduleConfig.get_saturday_dates. -/
def ScheduleConfig.get_saturday_dates (c : ScheduleConfig) : List Date :=
  c.get_all_dates.filter (fun d => weekdayOf d == 5)

/-- ScheduleConfig.get_sunday_dates. -/
def ScheduleConfig.get_sunday_dates (c : ScheduleConfig) : List Date :=
  c.get_all_dates.filter (fun d => weekdayOf d == 6)

/-- ScheduleConfig.get_friday_dates. -/
def ScheduleConfig.get_friday_dates (c : ScheduleConfig) : List Date :=
  c.get_all_dates.filter (fun d => weekdayOf d == 4)

/-- ScheduleConfig.get_employee_by_name: first employee with the name. -/
def ScheduleConfig.get_employee_by_name (c : ScheduleConfig) (n : String) : Option Employee :=
  c.employees.find? (fun e => e.name == n)

/-- ScheduleConfig.get_extra_weekend_employee: first flagged employee. -/
def ScheduleConfig.get_extra_weekend_employee (c : ScheduleConfig) : Option Employee :=
  c.employees.find? (fun e => e.is_extra_weekend)

/-- The fixed_dow dictionary built by iterating over fixed_assignments with
fixed_dow[fa.day_of_week] = fa.employee_name: the last assignment for a
given day of week wins. -/
def fixedDow (c : ScheduleConfig) (dow : Nat) : Option String :=
  ((c.fixed_assignments.filter (fun fa => fa.day_of_week == dow)).getLast?).map
    (fun fa => fa.employee_name)

/-- Lookup in an association list with default 0, mirroring the Python dict
method get(name, 0). -/
def lookupD (l : List (String × Nat)) (k : String) : Nat :=
  match l.find? (fun p => p.1 == k) with
  | some p => p.2
  | none => 0

/-- The dictionary returned by compute_pool_stats of src/solver.py.  The
per-employee quota dictionaries are association lists keyed by the
deduplicated employee names. -/
structure PoolStats where
  H : Nat
  N : Nat
  total_weekdays : Nat
  total_weekends : Nat
  total_fixed_weekdays : Nat
  total_fixed_weekends : Nat
  remaining_weekdays : Int
  remaining_weekends : Int
  extra_weekend_quota : Nat
  remaining_weekends_effective : Int
  fixed_weekdays_per_emp : List (String × Nat)
  fixed_weekends_per_emp : List (String × Nat)
  fixed_dow : Nat → Option String
  link_friday_saturday : Bool

/-- compute_pool_stats of src/solver.py.  A recurring fixed assignment gives
its employee a full quota of H slots in the matching pool (the dict entry is
assigned, not incremented, so several fixed assignments for one employee in
one pool still give H); vacations never enter the computation.  When the
Friday-Saturday link is active, Fridays leave the weekday pool and a Friday
fixed assignment gives no weekday quota. -/
def computePoolStats (c : ScheduleConfig) : PoolStats :=
  let weekday_dates := c.get_weekday_dates
  let weekend_dates := c.get_weekend_dates
  let H := c.get_num_weeks
  let N := c.employees.length
  let effective_weekday_dates :=
    if c.link_friday_saturday then weekday_dates.filter (fun d => !(weekdayOf d == 4))
    else weekday_dates
  let names := (c.employees.map Employee.name).dedup
  let wdQuota : String → Nat := fun n =>
    if [0, 1, 2, 3, 4].any (fun dow =>
        fixedDow c dow == some n && !(dow == 4 && c.link_friday_saturday)) then H else 0
  let weQuota : String → Nat := fun n =>
    if [5, 6].any (fun dow => fixedDow c dow == some n) then H else 0
  let fixed_weekdays_per_emp := names.map (fun n => (n, wdQuota n))
  let fixed_weekends_per_emp := names.map (fun n => (n, weQuota n))
  let total_fixed_weekdays := (fixed_weekdays_per_emp.map Prod.snd).sum
  let total_fixed_weekends := (fixed_weekends_per_emp.map Prod.snd).sum
  let remaining_weekdays : Int := (effective_weekday_dates.length : Int) - total_fixed_weekdays
  let remaining_weekends : Int := (weekend_dates.length : Int) - total_fixed_weekends
  let extra_weekend_quota := if (c.get_extra_weekend_employee).isSome then H else 0
  { H := H
    N := N
    total_weekdays := effective_weekday_dates.length
    total_weekends := weekend_dates.length
    total_fixed_weekdays := total_fixed_weekdays
    total_fixed_weekends := total_fixed_weekends
    remaining_weekdays := remaining_weekdays
    remaining_weekends := remaining_weekends
    extra_weekend_quota := extra_weekend_quota
    remaining_weekends_effective := remaining_weekends - extra_weekend_quota
    fixed_weekdays_per_emp := fixed_weekdays_per_emp
    fixed_weekends_per_emp := fixed_weekends_per_emp
    fixed_dow := fixedDow c
    link_friday_saturday := c.link_friday_saturday }

/-- Error messages of validate_config in src/validation.py, one constructor
per message site, carrying the numbers and names the f-string quotes. -/
inductive VMsg where
  | noEmployees
  | invalidDateRange
  | duplicateNames
  | tooManyExtraWeekend (count : Nat)
  | unknownFixedEmployee (day_of_week : Nat) (employee_name : String)
  | conflictingFixed (day_of_week : Nat) (first_name : String) (second_name : String)
  | weekdayPoolExhausted (fixed : Nat) (available : Nat)
  | weekendPoolExhausted (fixed : Nat) (extra_quota : Nat) (available : Nat)
  | noAvailableWeekdays (employee_name : String)
  | extraWeekendShortfall (employee_name : String) (needed : Nat) (available : Nat)
  | linkInfeasible (friday : Date) (saturday : Date)
deriving DecidableEq, Repr

/-- Insert or overwrite a day-of-week key in the fixed_days dictionary
(fixed_days[fa.day_of_week] = fa.employee_name). -/
def upsertDow : List (Nat × String) → Nat → String → List (Nat × String)
  | [], d, n => [(d, n)]
  | p :: ps, d, n => if p.1 == d then (d, n) :: ps else p :: upsertDow ps d n

/-- The check-6 loop of validate_config: build the fixed_days dictionary,
reporting a conflict whenever a day of week is already present. -/
def fixedDaysFold (fas : List FixedAssignment) : List (Nat × String) × List VMsg :=
  fas.foldl (fun acc fa =>
    let errs :=
      match acc.1.find? (fun p => p.1 == fa.day_of_week) with
      | some p => acc.2 ++ [VMsg.conflictingFixed fa.day_of_week p.2 fa.employee_name]
      | none => acc.2
    (upsertDow acc.1 fa.day_of_week fa.employee_name, errs)) ([], [])

/-- validate_config of src/validation.py: structural checks with early
returns, then pool-capacity, availability and link-feasibility checks.
Python tests duplicate names via len(names) != len(set(names)), modelled by
comparing the length with the deduplicated length. -/
def validate_config (c : ScheduleConfig) : Bool × List VMsg :=
  if c.employees.isEmpty then (false, [VMsg.noEmployees])
  else
    let all_dates := c.get_all_dates
    if all_dates.isEmpty then (false, [VMsg.invalidDateRange])
    else
      let names := c.employees.map Employee.name
      if !(names.length == names.dedup.length) then (false, [VMsg.duplicateNames])
      else
        let extra_count := c.employees.countP (fun e => e.is_extra_weekend)
        if 1 < extra_count then (false, [VMsg.tooManyExtraWeekend extra_count])
        else
          let errors5 := c.fixed_assignments.filterMap (fun fa =>
            if names.contains fa.employee_name then none
            else some (VMsg.unknownFixedEmployee fa.day_of_week fa.employee_name))
          let fd := fixedDaysFold c.fixed_assignments
          let fixed_days := fd.1
          let errors56 := errors5 ++ fd.2
          if !errors56.isEmpty then (false, errors56)
          else
            let weekday_dates := c.get_weekday_dates
            let weekend_dates := c.get_weekend_dates
            let H := c.get_num_weeks
            let inFixed : Nat → Bool := fun dow => (fixed_days.find? (fun p => p.1 == dow)).isSome
            let lookupFD : Nat → Option String := fun dow =>
              (fixed_days.find? (fun p => p.1 == dow)).map Prod.snd
            let total_fixed_weekdays := weekday_dates.countP (fun d => inFixed (weekdayOf d))
            let total_fixed_weekends := weekend_dates.countP (fun d => inFixed (weekdayOf d))
            let remaining_weekdays : Int := (weekday_dates.length : Int) - total_fixed_weekdays
            let remaining_weekends : Int := (weekend_dates.length : Int) - total_fixed_weekends
            let extra_emp := c.get_extra_weekend_employee
            let extra_quota : Nat := if extra_emp.isSome then H else 0
            let remaining_weekends_effective := remaining_weekends - extra_quota
            let errors7a :=
              if remaining_weekdays < 0 then
                [VMsg.weekdayPoolExhausted total_fixed_weekdays weekday_dates.length] else []
            let errors7b :=
              if remaining_weekends_effective < 0 then
                [VMsg.weekendPoolExhausted total_fixed_weekends extra_quota weekend_dates.length]
              else []
            let wAvail : Employee → Nat := fun e => weekday_dates.countP (fun d =>
              let dow := weekdayOf d
              !(inFixed dow && !(lookupFD dow == some e.name)) && e.is_available d)
            let weAvail : Employee → Nat := fun e => weekend_dates.countP (fun d =>
              let dow := weekdayOf d
              !(inFixed dow && !(lookupFD dow == some e.name)) && e.is_available d)
            let errors8 := c.employees.filterMap (fun e =>
              if 0 < remaining_weekdays && wAvail e == 0 &&
                 !(c.fixed_assignments.any (fun fa =>
                    fa.employee_name == e.name && fa.day_of_week < 5)) then
                some (VMsg.noAvailableWeekdays e.name)
              else none)
            let errors8b :=
              match extra_emp with
              | some ee =>
                if weAvail ee < extra_quota then
                  [VMsg.extraWeekendShortfall ee.name extra_quota (weAvail ee)] else []
              | none => []
            let errors9 :=
              if c.link_friday_saturday then
                c.get_friday_dates.filterMap (fun fri =>
                  let sat := fri + 1
                  if !(all_dates.contains sat) then none
                  else if c.employees.any (fun e =>
                      (e.is_available fri &&
                        (!(inFixed (weekdayOf fri)) || lookupFD (weekdayOf fri) == some e.name)) &&
                      (e.is_available sat &&
                        (!(inFixed (weekdayOf sat)) || lookupFD (weekdayOf sat) == some e.name)))
                    then none
                  else some (VMsg.linkInfeasible fri sat))
              else []
            let errors := errors7a ++ errors7b ++ errors8 ++ errors8b ++ errors9
            (errors.isEmpty, errors)

/-- A candidate assignment of the decision variables of the model built by
_solve_with_tolerance: assign[e.name, d] and allowed[e.name, dow].  The
variables are keyed by employee name, exactly as in the Python dicts. -/
structure Sol where
  assign : String → Date → Bool
  allowed : String → Nat → Bool

/-- The external CP-SAT solver, abstracted: given the configuration, the
tolerance and the per-attempt time limit, it returns some variable
assignment when the solve status is OPTIMAL or FEASIBLE and none when it is
INFEASIBLE or UNKNOWN. -/
abbrev SolverOracle := ScheduleConfig → Nat → Nat → Option Sol

/-- Number of dates of a list on which the named employee is assigned,
mirroring sum(assign[e.name, d] for d in dates). -/
def assignedCount (sol : Sol) (n : String) (dates : List Date) : Nat :=
  dates.countP (fun d => sol.assign n d)

/-- Hard constraint 1: exactly one employee per day (AddExactlyOne over the
per-employee variables; duplicate names share one variable, making the
constraint unsatisfiable exactly as the duplicated generator term does). -/
def onePerDayOk (c : ScheduleConfig) (sol : Sol) : Bool :=
  c.get_all_dates.all (fun d => c.employees.countP (fun e => sol.assign e.name d) == 1)

/-- Hard constraint 2: a recurring fixed assignment forces its employee on
every matching date, unless that employee is unavailable there. -/
def fixedAssignmentsOk (c : ScheduleConfig) (stats : PoolStats) (sol : Sol) : Bool :=
  c.get_all_dates.all (fun d =>
    match stats.fixed_dow (weekdayOf d) with
    | some nm =>
      match c.get_employee_by_name nm with
      | some emp => if emp.is_available d then sol.assign nm d else true
      | none => true
    | none => true)

/-- Hard constraint 3: an unavailable employee is never assigned. -/
def availabilityOk (c : ScheduleConfig) (sol : Sol) : Bool :=
  c.employees.all (fun e => c.get_all_dates.all (fun d =>
    e.is_available d || !(sol.assign e.name d)))

/-- A date whose weekday has a fixed assignment but whose fixed employee is
unavailable there (vacation replacement day). -/
def isVacationReplacement (c : ScheduleConfig) (stats : PoolStats) (d : Date) : Bool :=
  match stats.fixed_dow (weekdayOf d) with
  | some nm =>
    match c.get_employee_by_name nm with
    | some emp => !(emp.is_available d)
    | none => false
  | none => false

/-- Hard constraint 4: pattern consistency.  At most 2 distinct Mon-Thu pool
weekdays per employee, and any pool assignment on a Mon-Thu date that is not
a vacation replacement day requires the allowed flag of its weekday. -/
def patternOk (c : ScheduleConfig) (stats : PoolStats) (sol : Sol) : Bool :=
  c.employees.all (fun e =>
    let pool_days := [0, 1, 2, 3].filter (fun dow => !(stats.fixed_dow dow == some e.name))
    decide (pool_days.countP (fun dow => sol.allowed e.name dow) ≤ 2) &&
    c.get_weekday_dates.all (fun d =>
      let dow := weekdayOf d
      if [0, 1, 2, 3].contains dow && !(isVacationReplacement c stats d) &&
         !(stats.fixed_dow dow == some e.name) then
        !(sol.assign e.name d) || sol.allowed e.name dow
      else true))

/-- Hard constraint 5: the extra weekend employee works at least H weekend
days. -/
def extraWeekendOk (c : ScheduleConfig) (stats : PoolStats) (sol : Sol) : Bool :=
  c.employees.all (fun e =>
    !e.is_extra_weekend || decide (stats.H ≤ assignedCount sol e.name c.get_weekend_dates))

/-- Hard constraint 6: with the link active, each employee works a Friday
iff they work the following Saturday (the two implications of the code). -/
def linkOk (c : ScheduleConfig) (sol : Sol) : Bool :=
  !c.link_friday_saturday ||
  c.get_friday_dates.all (fun fri =>
    !(c.get_all_dates.contains (fri + 1)) ||
    c.employees.all (fun e => sol.assign e.name fri == sol.assign e.name (fri + 1)))

/-- The expression remaining // N if N > 0 else 0 (Python floor division). -/
def poolFloor (pool : Int) (n : Nat) : Int := if 0 < n then pool.fdiv n else 0

/-- The expression (remaining + N - 1) // N if N > 0 else 0. -/
def poolCeil (pool : Int) (n : Nat) : Int :=
  if 0 < n then (pool + n - 1).fdiv n else 0

/-- Whether the employee can work Saturday (5 not forbidden). -/
def canSat (e : Employee) : Bool := !(e.forbidden_weekdays.contains 5)

/-- Whether the employee can work Sunday (6 not forbidden). -/
def canSun (e : Employee) : Bool := !(e.forbidden_weekdays.contains 6)

/-- Classification restricted_sat_only: can work Saturday, not Sunday. -/
def satOnly (e : Employee) : Bool := canSat e && !(canSun e)

/-- Classification restricted_sun_only: can work Sunday, not Saturday. -/
def sunOnly (e : Employee) : Bool := canSun e && !(canSat e)

/-- The extra-weekend weekday block (source lines 314-352) for one
employee: the hard cap pool_wd <= wd_floor_with_fri + 1, together with the
domain constraints of pool_wd_var ([0, weekday count]), deviation
([-count, count]) and neg_dev ([-count, 0]; since neg_dev is pinned to
-deviation, its domain forces deviation >= 0). -/
def extraBlockOk (c : ScheduleConfig) (stats : PoolStats) (sol : Sol) (e : Employee) : Bool :=
  if e.is_extra_weekend then
    let wd_len : Int := (c.get_weekday_dates.length : Int)
    let total_fixed_wd : Int := ((stats.fixed_weekdays_per_emp.map Prod.snd).sum : Int)
    let wd_floor_with_fri : Int := poolFloor (wd_len - total_fixed_wd) c.employees.length
    let pool_wd : Int := (assignedCount sol e.name c.get_weekday_dates : Int) -
      (lookupD stats.fixed_weekdays_per_emp e.name : Int)
    let deviation : Int := pool_wd - wd_floor_with_fri
    decide (0 ≤ pool_wd) && decide (pool_wd ≤ wd_len) &&
    decide (pool_wd ≤ wd_floor_with_fri + 1) &&
    decide (-wd_len ≤ deviation) && decide (deviation ≤ wd_len) &&
    decide (0 ≤ deviation) &&
    decide (max deviation 0 ≤ wd_len) && decide (max (-deviation) 0 ≤ wd_len)
  else true

/-- The per-employee fairness bounds (source lines 378-446): the domain
constraints of wd_var, we_var and total_var, the four tolerance-dependent
pool bounds, and the Saturday/Sunday pinning for restricted employees. -/
def fairBoundsOk (c : ScheduleConfig) (stats : PoolStats) (tol : Nat) (sol : Sol)
    (e : Employee) : Bool :=
  let wd_len : Int := (c.get_weekday_dates.length : Int)
  let we_len : Int := (c.get_weekend_dates.length : Int)
  let all_len : Int := (c.get_all_dates.length : Int)
  let N := c.employees.length
  let wd_floor := poolFloor stats.remaining_weekdays N
  let wd_ceil := poolCeil stats.remaining_weekdays N
  let we_floor := poolFloor stats.remaining_weekends_effective N
  let we_ceil := poolCeil stats.remaining_weekends_effective N
  let has_fixed_weekday := [0, 1, 2, 3, 4].any (fun dow => stats.fixed_dow dow == some e.name)
  let has_fixed_weekend := [5, 6].any (fun dow => stats.fixed_dow dow == some e.name)
  let fixed_wd_quota : Int := if has_fixed_weekday then (stats.H : Int) else 0
  let fixed_we_quota : Int := if has_fixed_weekend then (stats.H : Int) else 0
  let extra_we_quota : Int := if e.is_extra_weekend then (stats.H : Int) else 0
  let linked_friday_adjustment : Int :=
    if c.link_friday_saturday then (assignedCount sol e.name c.get_friday_dates : Int) else 0
  let wd_var : Int := (assignedCount sol e.name c.get_weekday_dates : Int) -
    fixed_wd_quota - linked_friday_adjustment
  let we_var : Int := (assignedCount sol e.name c.get_weekend_dates : Int) -
    fixed_we_quota - extra_we_quota
  let total_var : Int := wd_var + we_var
  let wd_min : Int :=
    if e.is_extra_weekend && c.link_friday_saturday then 0 else max 0 (wd_floor - 1)
  decide (-wd_len ≤ wd_var) && decide (wd_var ≤ wd_len) &&
  decide (-we_len ≤ we_var) && decide (we_var ≤ we_len) &&
  decide (-all_len ≤ total_var) && decide (total_var ≤ all_len) &&
  decide (wd_min ≤ wd_var) && decide (wd_var ≤ wd_ceil + tol + 1) &&
  decide (max 0 (we_floor - 1) ≤ we_var) && decide (we_var ≤ we_ceil + tol + 1) &&
  (if satOnly e then assignedCount sol e.name c.get_sunday_dates == 0
   else if sunOnly e then assignedCount sol e.name c.get_saturday_dates == 0
   else true)

/-- Domain constraints of the soft-objective auxiliary variables that are
pinned by equality to an expression over the assignment (wd_scaled,
we_scaled and sat_sun_diff with the abs variable). -/
def scaledDomainOk (c : ScheduleConfig) (stats : PoolStats) (sol : Sol) (e : Employee) : Bool :=
  let wd_len : Int := (c.get_weekday_dates.length : Int)
  let we_len : Int := (c.get_weekend_dates.length : Int)
  let N := c.employees.length
  let extra_taken : Int := if e.is_extra_weekend then (stats.H : Int) else 0
  let wd_scaled : Int := N * ((assignedCount sol e.name c.get_weekday_dates : Int) -
    (lookupD stats.fixed_weekdays_per_emp e.name : Int)) - stats.remaining_weekdays
  let we_scaled : Int := N * ((assignedCount sol e.name c.get_weekend_dates : Int) -
    (lookupD stats.fixed_weekends_per_emp e.name : Int) - extra_taken) -
    stats.remaining_weekends_effective
  let sat_sun_diff : Int := (assignedCount sol e.name c.get_saturday_dates : Int) -
    (assignedCount sol e.name c.get_sunday_dates : Int)
  decide (-(wd_len * N) ≤ wd_scaled) && decide (wd_scaled ≤ wd_len * N) &&
  decide (-(we_len * N) ≤ we_scaled) && decide (we_scaled ≤ we_len * N) &&
  decide ((sat_sun_diff.natAbs : Int) ≤ we_len)

/-- The anti-correlation constraint (source lines 490-524): when both pools
have a nonzero remainder over the non-extra employees, an employee above
the weekday floor is forced at or below the weekend floor. -/
def antiCorrOk (c : ScheduleConfig) (stats : PoolStats) (sol : Sol) : Bool :=
  let pool_employees := c.employees.filter (fun e => !e.is_extra_weekend)
  let n_pool := pool_employees.length
  if 0 < n_pool then
    let wd_len : Int := (c.get_weekday_dates.length : Int)
    let we_len : Int := (c.get_weekend_dates.length : Int)
    let wd_ceil := poolCeil stats.remaining_weekdays c.employees.length
    let extra_we_friday_quota : Int :=
      if c.link_friday_saturday && (c.get_extra_weekend_employee).isSome then wd_ceil else 0
    let actual_wd_pool : Int := wd_len - (stats.total_fixed_weekdays : Int) - extra_we_friday_quota
    let actual_we_pool : Int :=
      we_len - (stats.total_fixed_weekends : Int) - (stats.extra_weekend_quota : Int)
    let actual_wd_floor := actual_wd_pool.fdiv n_pool
    let actual_we_floor := actual_we_pool.fdiv n_pool
    if 0 < actual_wd_pool.emod n_pool && 0 < actual_we_pool.emod n_pool then
      pool_employees.all (fun e =>
        let awd : Int := (assignedCount sol e.name c.get_weekday_dates : Int) -
          (lookupD stats.fixed_weekdays_per_emp e.name : Int)
        let awe : Int := (assignedCount sol e.name c.get_weekend_dates : Int) -
          (lookupD stats.fixed_weekends_per_emp e.name : Int)
        !(decide (actual_wd_floor < awd)) || decide (awe ≤ actual_we_floor))
    else true
  else true

/-- Spread at most 1 between the maximum and minimum of a list of counts
(AddMaxEquality, AddMinEquality and the difference bound); no constraint
when the list is empty, because the code only adds the constraint then. -/
def countSpreadOk (vals : List Int) : Bool :=
  match vals.max?, vals.min? with
  | some hi, some lo => decide (hi - lo ≤ 1)
  | _, _ => true

/-- Spread at most 1 plus the [0, bound] domain of each spread variable
(the actual_wd_var and actual_we_var variables are declared with domain
[0, number of pool dates] and pinned by equality, so membership is a real
constraint). -/
def boundedSpreadOk (vals : List Int) (bound : Int) : Bool :=
  vals.all (fun v => decide (0 ≤ v) && decide (v ≤ bound)) && countSpreadOk vals

/-- The Saturday spread constraint over employees that are neither
Saturday-only restricted nor extra weekend. -/
def satSpreadOk (c : ScheduleConfig) (sol : Sol) : Bool :=
  countSpreadOk ((c.employees.filter (fun e => !(satOnly e) && !e.is_extra_weekend)).map
    (fun e => (assignedCount sol e.name c.get_saturday_dates : Int)))

/-- The Sunday spread constraint over employees that are neither Sunday-only
nor Saturday-only restricted nor extra weekend. -/
def sunSpreadOk (c : ScheduleConfig) (sol : Sol) : Bool :=
  countSpreadOk ((c.employees.filter (fun e =>
    !(sunOnly e) && !(satOnly e) && !e.is_extra_weekend)).map
    (fun e => (assignedCount sol e.name c.get_sunday_dates : Int)))

/-- The pool weekday spread constraint (non-extra employees). -/
def wdSpreadOk (c : ScheduleConfig) (stats : PoolStats) (sol : Sol) : Bool :=
  boundedSpreadOk ((c.employees.filter (fun e => !e.is_extra_weekend)).map (fun e =>
    (assignedCount sol e.name c.get_weekday_dates : Int) -
      (lookupD stats.fixed_weekdays_per_emp e.name : Int)))
    (c.get_weekday_dates.length : Int)

/-- The pool weekend spread constraint (all employees, with the fixed quota
and the extra-weekend H subtracted). -/
def weSpreadOk (c : ScheduleConfig) (stats : PoolStats) (sol : Sol) : Bool :=
  boundedSpreadOk (c.employees.map (fun e =>
    (assignedCount sol e.name c.get_weekend_dates : Int) -
      (lookupD stats.fixed_weekends_per_emp e.name : Int) -
      (if e.is_extra_weekend then (stats.H : Int) else 0)))
    (c.get_weekend_dates.length : Int)

/-- The fairness section of _solve_with_tolerance: every hard bound, spread
and anti-correlation constraint, together with the constraints that arise
from the declared domains of auxiliary integer variables that are pinned by
equality to an expression.  Domain bounds on the outputs of max, min and
absolute-value constraints over already-bounded arguments are vacuous and
are not repeated; the consecutive-day and weekend-spacing auxiliary
variables of the soft objective are fully determined or free within their
domains and constrain the assignment in no way, and the minimized objective
does not affect feasibility. -/
def fairnessOk (c : ScheduleConfig) (stats : PoolStats) (tol : Nat) (sol : Sol) : Bool :=
  c.employees.all (fun e =>
    extraBlockOk c stats sol e && fairBoundsOk c stats tol sol e && scaledDomainOk c stats sol e) &&
  antiCorrOk c stats sol &&
  satSpreadOk c sol &&
  sunSpreadOk c sol &&
  wdSpreadOk c stats sol &&
  weSpreadOk c stats sol

/-- The complete hard-constraint set of the model that _solve_with_tolerance
builds for (config, stats, tolerance). -/
def hardConstraints (c : ScheduleConfig) (stats : PoolStats) (tol : Nat) (sol : Sol) : Bool :=
  onePerDayOk c sol && fixedAssignmentsOk c stats sol && availabilityOk c sol &&
  patternOk c stats sol && extraWeekendOk c stats sol && linkOk c sol &&
  fairnessOk c stats tol sol

/-- An oracle is sound when everything it returns satisfies the hard
constraints of the model built for its inputs; both call sites of
_solve_with_tolerance pass the pool statistics of the current
configuration. -/
def SoundOracle (oracle : SolverOracle) : Prop :=
  ∀ c tol t sol, oracle c tol t = some sol →
    hardConstraints c (computePoolStats c) tol sol = true

/-- EmployeeStats of src/models.py.  The variable counts can be negative
(Python ints), so they are modelled as integers. -/
structure EmployeeStats where
  name : String
  total_duties : Nat
  weekday_duties : Nat
  weekend_duties : Nat
  saturday_count : Nat
  sunday_count : Nat
  friday_count : Nat
  fixed_weekdays : Nat
  fixed_weekends : Nat
  variable_weekdays : Int
  variable_weekends : Int
deriving DecidableEq, Repr

/-- The error_message strings produced by solve_schedule and
_solve_with_tolerance, one constructor per message site, carrying exactly
the data the f-string interpolates.  The empty constructor is the dataclass
default, the empty string. -/
inductive ErrMsg where
  | empty
  | noEmployees
  | noDates
  | weekdayPoolExhausted (fixed : Nat) (available : Nat)
  | weekendPoolExhausted (fixed : Nat) (extra_quota : Nat) (available : Nat)
  | noSolutionAtTolerance (tolerance : Nat)
  | releasedVacations (released : List (String × Date × Date))
  | couldNotFindFeasible (max_tolerance : Nat)
deriving DecidableEq, Repr

/-- ScheduleResult of src/models.py.  The assignment dictionary is an
association list with one entry per assigned date, in date order;
employee_stats is keyed by employee name.  solve_time_seconds is wall-clock
time and is not modelled. -/
structure ScheduleResult where
  success : Bool
  assignments : List (Date × String)
  employee_stats : List (String × EmployeeStats)
  tolerance_used : Nat
  error_message : ErrMsg
  total_weekdays : Nat
  total_weekends : Nat
  remaining_weekdays : Int
  remaining_weekends : Int
deriving DecidableEq, Repr

/-- A failure ScheduleResult with every other field at its dataclass
default (assignments empty, tolerance_used 1, pool figures 0). -/
def mkFailure (m : ErrMsg) : ScheduleResult :=
  { success := false
    assignments := []
    employee_stats := []
    tolerance_used := 1
    error_message := m
    total_weekdays := 0
    total_weekends := 0
    remaining_weekdays := 0
    remaining_weekends := 0 }

/-- Python dict lookup employee_stats[name], where later insertions win. -/
def statsLookup (r : ScheduleResult) (n : String) : Option EmployeeStats :=
  (r.employee_stats.reverse.find? (fun p => p.1 == n)).map Prod.snd

/-- The solution-extraction loop over a list of dates: for each date, the
first employee whose assign variable is set contributes the dictionary
entry (the Python loop breaks at the first hit). -/
def extractOn (c : ScheduleConfig) (sol : Sol) (l : List Date) : List (Date × String) :=
  l.filterMap (fun d =>
    (c.employees.find? (fun e => sol.assign e.name d)).map (fun e => (d, e.name)))

/-- The assignments dictionary extracted from a solved model. -/
def extractAssignments (c : ScheduleConfig) (sol : Sol) : List (Date × String) :=
  extractOn c sol c.get_all_dates

/-- The per-employee statistics computed after a successful solve: raw duty
counts from the assignment dictionary, quota-based fixed counts from the
pool statistics, and the variable counts with the link and extra-weekend
adjustments. -/
def buildEmployeeStats (c : ScheduleConfig) (stats : PoolStats)
    (assignments : List (Date × String)) (e : Employee) : EmployeeStats :=
  let mine := (assignments.filter (fun p => p.2 == e.name)).map Prod.fst
  let weekday_duties := mine.countP (fun d => weekdayOf d < 5)
  let weekend_duties := mine.countP (fun d => 5 ≤ weekdayOf d)
  let saturday_count := mine.countP (fun d => weekdayOf d == 5)
  let sunday_count := mine.countP (fun d => weekdayOf d == 6)
  let friday_count := mine.countP (fun d => weekdayOf d == 4)
  let fixed_weekdays := lookupD stats.fixed_weekdays_per_emp e.name
  let fixed_weekends := lookupD stats.fixed_weekends_per_emp e.name
  let base_vwd : Int := (weekday_duties : Int) - fixed_weekdays
  let variable_weekdays : Int :=
    if c.link_friday_saturday then base_vwd - friday_count else base_vwd
  let base_vwe : Int := (weekend_duties : Int) - fixed_weekends
  let variable_weekends : Int :=
    if e.is_extra_weekend then base_vwe - stats.H else base_vwe
  { name := e.name
    total_duties := mine.length
    weekday_duties := weekday_duties
    weekend_duties := weekend_duties
    saturday_count := saturday_count
    sunday_count := sunday_count
    friday_count := friday_count
    fixed_weekdays := fixed_weekdays
    fixed_weekends := fixed_weekends
    variable_weekdays := variable_weekdays
    variable_weekends := variable_weekends }

/-- The employee_stats dictionary of a successful result. -/
def buildStats (c : ScheduleConfig) (stats : PoolStats)
    (assignments : List (Date × String)) : List (String × EmployeeStats) :=
  c.employees.map (fun e => (e.name, buildEmployeeStats c stats assignments e))

/-- _solve_with_tolerance of src/solver.py: build the model, invoke the
solver, and either extract the solution into a successful result or return
a failure carrying the attempted tolerance. -/
def solveWithTolerance (oracle : SolverOracle) (c : ScheduleConfig) (stats : PoolStats)
    (tol t : Nat) : ScheduleResult :=
  match oracle c tol t with
  | some sol =>
    let assignments := extractAssignments c sol
    { success := true
      assignments := assignments
      employee_stats := buildStats c stats assignments
      tolerance_used := tol
      error_message := ErrMsg.empty
      total_weekdays := stats.total_weekdays
      total_weekends := stats.total_weekends
      remaining_weekdays := stats.remaining_weekdays
      remaining_weekends := stats.remaining_weekends_effective }
  | none => { mkFailure (ErrMsg.noSolutionAtTolerance tol) with tolerance_used := tol }

/-- One pass of the tolerance loop over an explicit list of tolerances:
return the first successful attempt. -/
def tryList (oracle : SolverOracle) (c : ScheduleConfig) (stats : PoolStats) (t : Nat) :
    List Nat → Option ScheduleResult
  | [] => none
  | tol :: rest =>
    let r := solveWithTolerance oracle c stats tol t
    if r.success then some r else tryList oracle c stats t rest

/-- The loop for tolerance in range(1, max_tolerance + 1). -/
def tryTolerances (oracle : SolverOracle) (c : ScheduleConfig) (stats : PoolStats)
    (maxTol t : Nat) : Option ScheduleResult :=
  tryList oracle c stats t (List.range' 1 maxTol)

/-- max(30, time_limit_seconds // max_tolerance).  Python raises on
max_tolerance = 0; the claims only concern max_tolerance at least 1. -/
def timePerTolerance (timeLimit maxTol : Nat) : Nat := max 30 (timeLimit / maxTol)

/-- An entry of the all_vacations list: (employee name, index of the
vacation in the list at collection time, length in days, start, end).
Length is an integer because Python computes it from a date difference. -/
structure VacEntry where
  emp : String
  idx : Nat
  len : Int
  vstart : Date
  vend : Date
deriving DecidableEq, Repr

/-- Collect every vacation period across all employees with its index and
length ((vac_end - vac_start).days + 1). -/
def collectVacations (c : ScheduleConfig) : List VacEntry :=
  c.employees.flatMap (fun e =>
    e.vacation_ranges.enum.map (fun p =>
      { emp := e.name, idx := p.1, len := (p.2.2 : Int) - (p.2.1 : Int) + 1,
        vstart := p.2.1, vend := p.2.2 }))

/-- Stable insertion for descending order by length: an element moves past
exactly the elements that are strictly longer, so equal lengths keep their
discovery order, matching the stable Python sort with reverse = True. -/
def insertDesc (v : VacEntry) : List VacEntry → List VacEntry
  | [] => [v]
  | w :: ws => if w.len ≤ v.len then v :: w :: ws else w :: insertDesc v ws

/-- all_vacations.sort(key = length, reverse = True): stable descending. -/
def sortVacationsDesc (l : List VacEntry) : List VacEntry :=
  l.foldr insertDesc []

/-- The release step inside the fallback loop: scan the employee list for
the first employee whose name matches the entry and whose current vacation
list is still longer than the saved index, and remove the vacation at that
index.  Returns the updated list and whether a removal happened.  The
saved index refers to the list as it stood at collection time, so after
earlier removals it can miss or hit a different period. -/
def releaseFirst (v : VacEntry) : List Employee → List Employee × Bool
  | [] => ([], false)
  | e :: es =>
    if e.name == v.emp && v.idx < e.vacation_ranges.length then
      ({ e with vacation_ranges := e.vacation_ranges.eraseIdx v.idx } :: es, true)
    else
      let r := releaseFirst v es
      (e :: r.1, r.2)

/-- The vacation-release fallback loop of solve_schedule: for each sorted
entry, attempt the removal, recompute the pool statistics, and rerun the
full tolerance loop with the whole time budget; on success, annotate the
result with the released periods when any were released.  When the entries
are exhausted the terminal failure carries the last statistics snapshot. -/
def releaseLoop (oracle : SolverOracle) (maxTol timeLimit : Nat) :
    ScheduleConfig → PoolStats → List (String × Date × Date) → List VacEntry → ScheduleResult
  | _, stats, _, [] =>
    { mkFailure (ErrMsg.couldNotFindFeasible maxTol) with
        total_weekdays := stats.total_weekdays
        total_weekends := stats.total_weekends
        remaining_weekdays := stats.remaining_weekdays
        remaining_weekends := stats.remaining_weekends_effective }
  | c, _, released, v :: rest =>
    let step := releaseFirst v c.employees
    let c' := { c with employees := step.1 }
    let released' := if step.2 then released ++ [(v.emp, v.vstart, v.vend)] else released
    let stats' := computePoolStats c'
    match tryTolerances oracle c' stats' maxTol timeLimit with
    | some r =>
      if released'.isEmpty then r
      else { r with error_message := ErrMsg.releasedVacations released' }
    | none => releaseLoop oracle maxTol timeLimit c' stats' released' rest

/-- solve_schedule of src/solver.py: basic checks, pool statistics, the
capacity guard, the ascending tolerance loop with the per-attempt time
slice, and the vacation-release fallback. -/
def solve_schedule (oracle : SolverOracle) (c : ScheduleConfig)
    (max_tolerance time_limit_seconds : Nat) : ScheduleResult :=
  if c.employees.isEmpty then mkFailure ErrMsg.noEmployees
  else if c.get_all_dates.isEmpty then mkFailure ErrMsg.noDates
  else
    let stats := computePoolStats c
    if stats.remaining_weekdays < 0 then
      mkFailure (ErrMsg.weekdayPoolExhausted stats.total_fixed_weekdays stats.total_weekdays)
    else if stats.remaining_weekends_effective < 0 then
      mkFailure (ErrMsg.weekendPoolExhausted stats.total_fixed_weekends
        stats.extra_weekend_quota stats.total_weekends)
    else
      match tryTolerances oracle c stats max_tolerance
          (timePerTolerance time_limit_seconds max_tolerance) with
      | some r => r
      | none =>
        releaseLoop oracle max_tolerance time_limit_seconds c stats []
          (sortVacationsDesc (collectVacations c))

/-- Two employees agree on everything except possibly their vacation lists.
The vacation-release fallback only ever rewrites vacation lists. -/
def EmployeeShapeEq (e e' : Employee) : Prop :=
  e'.name = e.name ∧ e'.forbidden_weekdays = e.forbidden_weekdays ∧
  e'.is_extra_weekend = e.is_extra_weekend

/-- The configuration c' is reachable from c by the vacation-release
fallback: identical dates, fixed assignments and link flag, and employees
that pairwise agree on everything except vacations. -/
structure ReleasedShape (c c' : ScheduleConfig) : Prop where
  start_eq : c'.start_date = c.start_date
  end_eq : c'.end_date = c.end_date
  fixed_eq : c'.fixed_assignments = c.fixed_assignments
  link_eq : c'.link_friday_saturday = c.link_friday_saturday
  emps : List.Forall₂ EmployeeShapeEq c.employees c'.employees

/-- Every assigned (date, name) pair of the result honors the availability
of every employee bearing that name in the attempt configuration: the
weekday is not forbidden and the date lies in no vacation range. -/
def AssignmentsRespectAvailability (r : ScheduleResult) (c' : ScheduleConfig) : Prop :=
  ∀ p ∈ r.assignments, ∀ e ∈ c'.employees, e.name = p.2 →
    e.forbidden_weekdays.contains (weekdayOf p.1) = false ∧
    ∀ v ∈ e.vacation_ranges, ¬(v.1 ≤ p.1 ∧ p.1 ≤ v.2)

/-- Every fixed assignment of the configuration is honored by the result:
on each matching date the fixed employee is assigned when available in the
attempt configuration, and some other employee is assigned when not. -/
def FixedAssignmentsHonored (r : ScheduleResult) (c c' : ScheduleConfig) : Prop :=
  ∀ fa ∈ c.fixed_assignments, ∀ emp, c'.get_employee_by_name fa.employee_name = some emp →
    ∀ d ∈ c.get_all_dates, weekdayOf d = fa.day_of_week →
      (emp.is_available d = true → (d, fa.employee_name) ∈ r.assignments) ∧
      (emp.is_available d = false → ∃ n, (d, n) ∈ r.assignments ∧ n ≠ fa.employee_name)

/-- Number of weekend dates assigned to the named employee in a result. -/
def weekendCountIn (r : ScheduleResult) (n : String) : Nat :=
  r.assignments.countP (fun p => p.2 == n && decide (5 ≤ weekdayOf p.1))

/-- Number of Sundays assigned to the named employee in a result. -/
def sundayCountIn (r : ScheduleResult) (n : String) : Nat :=
  r.assignments.countP (fun p => p.2 == n && weekdayOf p.1 == 6)

/-- Number of Saturdays assigned to the named employee in a result. -/
def saturdayCountIn (r : ScheduleResult) (n : String) : Nat :=
  r.assignments.countP (fun p => p.2 == n && weekdayOf p.1 == 5)

/-- Number of Mondays assigned to the named employee in a result. -/
def mondayCountIn (r : ScheduleResult) (n : String) : Nat :=
  r.assignments.countP (fun p => p.2 == n && weekdayOf p.1 == 0)

/-- The pool (variable) weekend count of an employee in a result: raw
weekend duties minus the fixed weekend quota minus the extra-weekend
reservation, computed against the attempt configuration. -/
def weekendVarOf (c' : ScheduleConfig) (r : ScheduleResult) (e : Employee) : Int :=
  (weekendCountIn r e.name : Int) -
  (if [5, 6].any (fun dow => (computePoolStats c').fixed_dow dow == some e.name) then
     ((computePoolStats c').H : Int) else 0) -
  (if e.is_extra_weekend then ((computePoolStats c').H : Int) else 0)

/-- What the model actually enforces for Saturday/Sunday-restricted
employees: the day they cannot work is pinned to zero, and their pool
weekend count obeys only the general tolerance-parameterized fairness
bounds (it is not pinned to the pool ceiling). -/
def RestrictedWeekendProp (c' : ScheduleConfig) (r : ScheduleResult) (tol : Nat) : Prop :=
  ∀ e ∈ c'.employees,
    (satOnly e = true → sundayCountIn r e.name = 0) ∧
    (sunOnly e = true → saturdayCountIn r e.name = 0) ∧
    (max 0 (poolFloor (computePoolStats c').remaining_weekends_effective
        c'.employees.length - 1) ≤ weekendVarOf c' r e ∧
     weekendVarOf c' r e ≤ poolCeil (computePoolStats c').remaining_weekends_effective
        c'.employees.length + tol + 1)

/-- The fixed quotas of the pool statistics are untouched by any
vacation-release step (they never read vacation lists). -/
def QuotaInvariantProp (c : ScheduleConfig) : Prop :=
  ∀ c', ReleasedShape c c' → ∀ n,
    lookupD (computePoolStats c').fixed_weekdays_per_emp n =
      lookupD (computePoolStats c).fixed_weekdays_per_emp n ∧
    lookupD (computePoolStats c').fixed_weekends_per_emp n =
      lookupD (computePoolStats c).fixed_weekends_per_emp n

/-- An employee holding an effective recurring fixed assignment in a pool
receives the full quota H in that pool. -/
def QuotaFullProp (c : ScheduleConfig) : Prop :=
  (∀ n dow, dow < 5 → ¬(dow = 4 ∧ c.link_friday_saturday = true) → fixedDow c dow = some n →
    n ∈ c.employees.map Employee.name →
    lookupD (computePoolStats c).fixed_weekdays_per_emp n = (computePoolStats c).H) ∧
  (∀ n dow, 5 ≤ dow → dow ≤ 6 → fixedDow c dow = some n →
    n ∈ c.employees.map Employee.name →
    lookupD (computePoolStats c).fixed_weekends_per_emp n = (computePoolStats c).H)

/-- In a successful result, every employee statistic carries exactly the
quota-based fixed counts of the pool statistics of the original
configuration. -/
def StatsQuotaProp (c : ScheduleConfig) (r : ScheduleResult) : Prop :=
  ∃ c', ReleasedShape c c' ∧ ∀ e ∈ c'.employees, ∃ s, statsLookup r e.name = some s ∧
    s.fixed_weekdays = lookupD (computePoolStats c).fixed_weekdays_per_emp e.name ∧
    s.fixed_weekends = lookupD (computePoolStats c).fixed_weekends_per_emp e.name

/-! Concrete scenarios used by counterexamples and witnesses. -/

def nA : String := "A"

def nB : String := "B"

def nC : String := "C"

/-- Scenario 1: three employees over two full weeks (Monday day 0 through
Sunday day 13), employee A forbidden on Sunday, no fixed assignments, no
link, no extra weekend employee. -/
def exCfg1 : ScheduleConfig :=
  { start_date := 0
    end_date := 13
    employees :=
      [ { name := nA, forbidden_weekdays := [6], vacation_ranges := [], is_extra_weekend := false }
      , { name := nB, forbidden_weekdays := [], vacation_ranges := [], is_extra_weekend := false }
      , { name := nC, forbidden_weekdays := [], vacation_ranges := [], is_extra_weekend := false } ]
    fixed_assignments := []
    link_friday_saturday := false }

/-- A feasible assignment for scenario 1 in which A works one weekend day,
not two: A gets days 0, 1, 7, 8 and Saturday 5; B gets 2, 4, 6, 9, 12;
C gets 3, 10, 11, 13. -/
def exSol1 : Sol :=
  { assign := fun n d =>
      [ (nA, (0 : Date)), (nA, 1), (nA, 5), (nA, 7), (nA, 8)
      , (nB, 2), (nB, 4), (nB, 6), (nB, 9), (nB, 12)
      , (nC, 3), (nC, 10), (nC, 11), (nC, 13) ].contains (n, d)
    allowed := fun n dow =>
      [ (nA, (0 : Nat)), (nA, 1), (nB, 2), (nC, 3) ].contains (n, dow) }

/-- An oracle that answers scenario 1 at tolerance 1 with exSol1. -/
def exOracle1 : SolverOracle := fun c tol _ =>
  if c = exCfg1 ∧ tol = 1 then some exSol1 else none

/-- Scenario 2: one week (Monday day 0 through Sunday day 6), a fixed
Monday assignment to A, and a vacation of A covering the only Monday. -/
def exCfg2 : ScheduleConfig :=
  { start_date := 0
    end_date := 6
    employees :=
      [ { name := nA, forbidden_weekdays := [], vacation_ranges := [(0, 0)],
          is_extra_weekend := false }
      , { name := nB, forbidden_weekdays := [], vacation_ranges := [], is_extra_weekend := false } ]
    fixed_assignments := [{ day_of_week := 0, employee_name := nA }]
    link_friday_saturday := false }

/-- A feasible assignment for scenario 2: B covers the vacated Monday,
A works 1, 2, 4 and Saturday 5, B works 3 and Sunday 6. -/
def exSol2 : Sol :=
  { assign := fun n d =>
      [ (nA, (1 : Date)), (nA, 2), (nA, 4), (nA, 5)
      , (nB, 0), (nB, 3), (nB, 6) ].contains (n, d)
    allowed := fun n dow =>
      [ (nA, (1 : Nat)), (nA, 2), (nB, 3) ].contains (n, dow) }

/-- An oracle that answers scenario 2 at tolerance 1 with exSol2. -/
def exOracle2 : SolverOracle := fun c tol _ =>
  if c = exCfg2 ∧ tol = 1 then some exSol2 else none

/-- Scenario for the vacation-release phase: one week, employee A, with
vacations to be released, and employee B. -/
def exCfgBug : ScheduleConfig :=
  { start_date := 0
    end_date := 6
    employees :=
      [ { name := nA, forbidden_weekdays := [], vacation_ranges := [(1, 3), (5, 5)],
          is_extra_weekend := false }
      , { name := nB, forbidden_weekdays := [], vacation_ranges := [], is_extra_weekend := false } ]
    fixed_assignments := []
    link_friday_saturday := false }

/-- Scenario with only the short vacation of exCfgBug. -/
def exCfg10 : ScheduleConfig :=
  { start_date := 0
    end_date := 6
    employees :=
      [ { name := nA, forbidden_weekdays := [], vacation_ranges := [(5, 5)],
          is_extra_weekend := false }
      , { name := nB, forbidden_weekdays := [], vacation_ranges := [], is_extra_weekend := false } ]
    fixed_assignments := []
    link_friday_saturday := false }

/-- The configuration with every vacation of A removed. -/
def exCfgFull : ScheduleConfig :=
  { start_date := 0
    end_date := 6
    employees :=
      [ { name := nA, forbidden_weekdays := [], vacation_ranges := [], is_extra_weekend := false }
      , { name := nB, forbidden_weekdays := [], vacation_ranges := [], is_extra_weekend := false } ]
    fixed_assignments := []
    link_friday_saturday := false }

/-- A feasible assignment for exCfgFull: A works 0, 1, 4 and Saturday 5;
B works 2, 3 and Sunday 6. -/
def exSolFull : Sol :=
  { assign := fun n d =>
      [ (nA, (0 : Date)), (nA, 1), (nA, 4), (nA, 5)
      , (nB, 2), (nB, 3), (nB, 6) ].contains (n, d)
    allowed := fun n dow =>
      [ (nA, (0 : Nat)), (nA, 1), (nB, 2), (nB, 3) ].contains (n, dow) }

/-- An oracle that finds a solution only once every vacation of A has been
removed (a solver may legitimately return UNKNOWN elsewhere). -/
def exOracleFull : SolverOracle := fun c tol _ =>
  if c = exCfgFull ∧ tol = 1 then some exSolFull else none

/-- Capacity-deficit scenario: Monday through Wednesday only (3 weekday
dates), but five employees each holding a recurring fixed weekday, so the
fixed weekday quota is 5 and the remaining weekday pool is negative. -/
def exCfg4 : ScheduleConfig :=
  { start_date := 0
    end_date := 2
    employees :=
      [ { name := nA, forbidden_weekdays := [], vacation_ranges := [], is_extra_weekend := false }
      , { name := nB, forbidden_weekdays := [], vacation_ranges := [], is_extra_weekend := false }
      , { name := nC, forbidden_weekdays := [], vacation_ranges := [], is_extra_weekend := false }
      , { name := "D", forbidden_weekdays := [], vacation_ranges := [], is_extra_weekend := false }
      , { name := "E", forbidden_weekdays := [], vacation_ranges := [], is_extra_weekend := false } ]
    fixed_assignments :=
      [ { day_of_week := 0, employee_name := nA }
      , { day_of_week := 1, employee_name := nB }
      , { day_of_week := 2, employee_name := nC }
      , { day_of_week := 3, employee_name := "D" }
      , { day_of_week := 4, employee_name := "E" } ]
    link_friday_saturday := false }

/-- Two employees both flagged extra weekend, otherwise structurally clean. -/
def exCfg9 : ScheduleConfig :=
  { start_date := 0
    end_date := 6
    employees :=
      [ { name := nA, forbidden_weekdays := [], vacation_ranges := [], is_extra_weekend := true }
      , { name := nB, forbidden_weekdays := [], vacation_ranges := [], is_extra_weekend := true } ]
    fixed_assignments := []
    link_friday_saturday := false }

/-! Lemmas. -/

/-- When exactly one assign variable is set on a date, the extraction loop
finds an employee, and its name agrees with the name of any employee whose
variable is set on that date. -/
theorem find_name_eq (sol : Sol) (d : Date) :
    ∀ l : List Employee, l.countP (fun e => sol.assign e.name d) = 1 →
      ∀ e ∈ l, sol.assign e.name d = true →
        ∃ e₀, l.find? (fun x => sol.assign x.name d) = some e₀ ∧ e₀.name = e.name := by
  intro l
  induction l with
  | nil => intro _ e he; cases he
  | cons x t ih =>
    intro h1 e he ha
    rw [List.countP_cons] at h1
    by_cases hx : sol.assign x.name d = true
    · refine ⟨x, List.find?_cons_of_pos _ hx, ?_⟩
      simp only [hx, if_pos] at h1
      have ht : t.countP (fun e => sol.assign e.name d) = 0 := by omega
      rcases List.mem_cons.mp he with he | he
      · rw [he]
      · exact absurd ha (List.countP_eq_zero.mp ht e he)
    · have hfind : (x :: t).find? (fun x => sol.assign x.name d) =
          t.find? (fun x => sol.assign x.name d) :=
        List.find?_cons_of_neg _ (by simpa using hx)
      simp only [hx, if_neg, if_false, Nat.add_zero] at h1
      rcases List.mem_cons.mp he with he | he
      · rw [he] at ha; exact absurd ha hx
      · obtain ⟨e₀, hf, hn⟩ := ih h1 e he ha
        exact ⟨e₀, by rw [hfind]; exact hf, hn⟩

/-- Unfolding one step of the extraction when the search succeeds. -/
theorem extractOn_cons {c : ScheduleConfig} {sol : Sol} {d : Date} {t : List Date}
    {e₀ : Employee} (hfind : c.employees.find? (fun e => sol.assign e.name d) = some e₀) :
    extractOn c sol (d :: t) = (d, e₀.name) :: extractOn c sol t := by
  simp [extractOn, List.filterMap_cons, hfind]

/-- Pointwise form of the exactly-one-per-day constraint. -/
theorem onePerDay_pointwise {c : ScheduleConfig} {sol : Sol}
    (h : onePerDayOk c sol = true) :
    ∀ d ∈ c.get_all_dates, c.employees.countP (fun e => sol.assign e.name d) = 1 := by
  intro d hd
  have := (List.all_eq_true.mp h) d hd
  simpa using this

/-- Under the exactly-one constraint the extraction covers the date list
exactly, and every produced name belongs to an employee. -/
theorem extractOn_cover (c : ScheduleConfig) (sol : Sol) :
    ∀ l : List Date,
      (∀ d ∈ l, c.employees.countP (fun e => sol.assign e.name d) = 1) →
      (extractOn c sol l).map Prod.fst = l ∧
      ∀ p ∈ extractOn c sol l, p.2 ∈ c.employees.map Employee.name := by
  intro l
  induction l with
  | nil => intro _; exact ⟨rfl, by intro p hp; cases hp⟩
  | cons d t ih =>
    intro h
    have hd := h d (by simp)
    have hpos : 0 < c.employees.countP (fun e => sol.assign e.name d) := by omega
    obtain ⟨e, hmem, hsat⟩ := List.countP_pos_iff.mp hpos
    obtain ⟨e₀, hfind, _⟩ := find_name_eq sol d c.employees hd e hmem hsat
    have ht := ih (fun d hd => h d (by simp [hd]))
    rw [extractOn_cons hfind]
    constructor
    · simp only [List.map_cons, ht.1]
    · intro p hp
      rcases List.mem_cons.mp hp with hp | hp
      · rw [hp]
        exact List.mem_map_of_mem Employee.name (List.mem_of_find?_eq_some hfind)
      · exact ht.2 p hp

/-- Membership facts for extracted pairs. -/
theorem mem_extractOn {c : ScheduleConfig} {sol : Sol} {l : List Date}
    {p : Date × String} (hp : p ∈ extractOn c sol l) :
    p.1 ∈ l ∧ ∃ e₀ ∈ c.employees,
      c.employees.find? (fun x => sol.assign x.name p.1) = some e₀ ∧
      p.2 = e₀.name ∧ sol.assign e₀.name p.1 = true := by
  obtain ⟨d, hd, hsome⟩ := List.mem_filterMap.mp hp
  obtain ⟨e₀, hfind, heq⟩ := Option.map_eq_some'.mp hsome
  cases heq
  refine ⟨hd, e₀, List.mem_of_find?_eq_some hfind, ?_, rfl, ?_⟩
  · exact hfind
  · simpa using List.find?_some hfind

/-- Counting extracted pairs with a given name and a date predicate equals
counting the assigned dates of that employee among the filtered dates. -/
theorem countP_extractOn (c : ScheduleConfig) (sol : Sol) (e : Employee)
    (he : e ∈ c.employees) (P : Date → Bool) :
    ∀ l : List Date,
      (∀ d ∈ l, c.employees.countP (fun x => sol.assign x.name d) = 1) →
      (extractOn c sol l).countP (fun p => p.2 == e.name && P p.1) =
        (l.filter P).countP (fun d => sol.assign e.name d) := by
  intro l
  induction l with
  | nil => intro _; rfl
  | cons d t ih =>
    intro h
    have hd := h d (by simp)
    have hpos : 0 < c.employees.countP (fun x => sol.assign x.name d) := by omega
    obtain ⟨w, hwmem, hwsat⟩ := List.countP_pos_iff.mp hpos
    obtain ⟨e₀, hfind, _⟩ := find_name_eq sol d c.employees hd w hwmem hwsat
    have ht := ih (fun d hd => h d (by simp [hd]))
    have hkey : (e₀.name == e.name) = sol.assign e.name d := by
      by_cases ha : sol.assign e.name d = true
      · obtain ⟨e₁, hfind', hn⟩ := find_name_eq sol d c.employees hd e he ha
        rw [hfind] at hfind'
        cases hfind'
        simp [hn, ha]
      · have hne : ¬(e₀.name = e.name) := by
          intro hn
          have := List.find?_some hfind
          rw [hn] at this
          exact ha this
        simp [hne, (by simpa using ha : sol.assign e.name d = false)]
    rw [extractOn_cons hfind]
    by_cases hP : P d = true
    · rw [List.filter_cons_of_pos hP, List.countP_cons, List.countP_cons, ht]
      simp [hkey, hP]
    · rw [List.filter_cons_of_neg (by simpa using hP), List.countP_cons, ht]
      simp [hP]

/-- ReleasedShape is reflexive. -/
theorem releasedShape_refl (c : ScheduleConfig) : ReleasedShape c c :=
  ⟨rfl, rfl, rfl, rfl, List.forall₂_same.mpr (fun _ _ => ⟨rfl, rfl, rfl⟩)⟩

/-- EmployeeShapeEq composes along Forall₂. -/
theorem employeeShape_forall₂_trans :
    ∀ {l1 l2 l3 : List Employee}, List.Forall₂ EmployeeShapeEq l1 l2 →
      List.Forall₂ EmployeeShapeEq l2 l3 → List.Forall₂ EmployeeShapeEq l1 l3 := by
  intro l1 l2 l3 h12
  induction h12 generalizing l3 with
  | nil => intro h23; cases h23; exact List.Forall₂.nil
  | cons h t ih =>
    intro h23
    cases h23 with
    | cons h' t' =>
      exact List.Forall₂.cons
        ⟨h'.1.trans h.1, h'.2.1.trans h.2.1, h'.2.2.trans h.2.2⟩ (ih t')

/-- ReleasedShape is transitive. -/
theorem releasedShape_trans {a b c : ScheduleConfig}
    (h1 : ReleasedShape a b) (h2 : ReleasedShape b c) : ReleasedShape a c :=
  ⟨h2.start_eq.trans h1.start_eq, h2.end_eq.trans h1.end_eq,
   h2.fixed_eq.trans h1.fixed_eq, h2.link_eq.trans h1.link_eq,
   employeeShape_forall₂_trans h1.emps h2.emps⟩

/-- A release step only rewrites one vacation list. -/
theorem releaseFirst_forall₂ (v : VacEntry) :
    ∀ l : List Employee, List.Forall₂ EmployeeShapeEq l (releaseFirst v l).1 := by
  intro l
  induction l with
  | nil => exact List.Forall₂.nil
  | cons e es ih =>
    by_cases hc : (e.name == v.emp && v.idx < e.vacation_ranges.length) = true
    · simp only [releaseFirst, hc, if_pos]
      exact List.Forall₂.cons ⟨rfl, rfl, rfl⟩ (List.forall₂_same.mpr (fun _ _ => ⟨rfl, rfl, rfl⟩))
    · simp only [releaseFirst, hc, if_neg, if_false]
      exact List.Forall₂.cons ⟨rfl, rfl, rfl⟩ ih

/-- A release step produces a configuration of the same shape. -/
theorem releaseFirst_shape (c : ScheduleConfig) (v : VacEntry) :
    ReleasedShape c { c with employees := (releaseFirst v c.employees).1 } :=
  ⟨rfl, rfl, rfl, rfl, releaseFirst_forall₂ v c.employees⟩

/-- Same shape, same dates. -/
theorem shape_dates {c c' : ScheduleConfig} (h : ReleasedShape c c') :
    c'.get_all_dates = c.get_all_dates := by
  unfold ScheduleConfig.get_all_dates
  rw [h.start_eq, h.end_eq]

/-- Same shape, same employee names. -/
theorem shape_names {c c' : ScheduleConfig} (h : ReleasedShape c c') :
    c'.employees.map Employee.name = c.employees.map Employee.name := by
  have : ∀ {l l' : List Employee}, List.Forall₂ EmployeeShapeEq l l' →
      l'.map Employee.name = l.map Employee.name := by
    intro l l' hf
    induction hf with
    | nil => rfl
    | cons h _ ih => simp [h.1, ih]
  exact this h.emps

/-- Same shape, same fixed-day dictionary. -/
theorem shape_fixedDow {c c' : ScheduleConfig} (h : ReleasedShape c c') :
    ∀ dow, fixedDow c' dow = fixedDow c dow := by
  intro dow
  unfold fixedDow
  rw [h.fixed_eq]

/-- Same shape, same week count. -/
theorem shape_num_weeks {c c' : ScheduleConfig} (h : ReleasedShape c c') :
    c'.get_num_weeks = c.get_num_weeks := by
  unfold ScheduleConfig.get_num_weeks
  rw [shape_dates h]

/-- The fixed weekday quota list of the pool statistics, unfolded. -/
theorem cps_fwd_per_emp (c : ScheduleConfig) :
    (computePoolStats c).fixed_weekdays_per_emp =
      ((c.employees.map Employee.name).dedup).map (fun n =>
        (n, if [0, 1, 2, 3, 4].any (fun dow =>
              fixedDow c dow == some n && !(dow == 4 && c.link_friday_saturday)) then
            c.get_num_weeks else 0)) := rfl

/-- The fixed weekend quota list of the pool statistics, unfolded. -/
theorem cps_fwe_per_emp (c : ScheduleConfig) :
    (computePoolStats c).fixed_weekends_per_emp =
      ((c.employees.map Employee.name).dedup).map (fun n =>
        (n, if [5, 6].any (fun dow => fixedDow c dow == some n) then
            c.get_num_weeks else 0)) := rfl

/-- Same shape, same fixed quota dictionaries: the quotas never read
vacation lists. -/
theorem shape_quotas {c c' : ScheduleConfig} (h : ReleasedShape c c') :
    (computePoolStats c').fixed_weekdays_per_emp = (computePoolStats c).fixed_weekdays_per_emp ∧
    (computePoolStats c').fixed_weekends_per_emp = (computePoolStats c).fixed_weekends_per_emp := by
  rw [cps_fwd_per_emp, cps_fwd_per_emp, cps_fwe_per_emp, cps_fwe_per_emp, shape_names h]
  constructor
  · apply List.map_congr_left
    intro n _
    simp [shape_fixedDow h, shape_num_weeks h, h.link_eq]
  · apply List.map_congr_left
    intro n _
    simp [shape_fixedDow h, shape_num_weeks h]

/-- Structure of a successful single-tolerance attempt. -/
theorem solveWithTolerance_success_struct (oracle : SolverOracle) (c : ScheduleConfig)
    (stats : PoolStats) (tol t : Nat)
    (hs : (solveWithTolerance oracle c stats tol t).success = true) :
    ∃ sol, oracle c tol t = some sol ∧
      solveWithTolerance oracle c stats tol t =
        { success := true
          assignments := extractAssignments c sol
          employee_stats := buildStats c stats (extractAssignments c sol)
          tolerance_used := tol
          error_message := ErrMsg.empty
          total_weekdays := stats.total_weekdays
          total_weekends := stats.total_weekends
          remaining_weekdays := stats.remaining_weekdays
          remaining_weekends := stats.remaining_weekends_effective } := by
  cases h : oracle c tol t with
  | none => simp [solveWithTolerance, h, mkFailure] at hs
  | some sol =>
    refine ⟨sol, rfl, ?_⟩
    simp [solveWithTolerance, h]

/-- The attempted tolerance is recorded in both outcomes. -/
theorem solveWithTolerance_tolerance (oracle : SolverOracle) (c : ScheduleConfig)
    (stats : PoolStats) (tol t : Nat) :
    (solveWithTolerance oracle c stats tol t).tolerance_used = tol := by
  cases h : oracle c tol t <;> simp [solveWithTolerance, h, mkFailure]

/-- Structure of a successful pass over a tolerance list. -/
theorem tryList_success_struct (oracle : SolverOracle) (c : ScheduleConfig)
    (stats : PoolStats) (t : Nat) :
    ∀ L r, tryList oracle c stats t L = some r →
      ∃ tol ∈ L, solveWithTolerance oracle c stats tol t = r ∧ r.success = true := by
  intro L
  induction L with
  | nil => intro r h; cases h
  | cons tol rest ih =>
    intro r h
    by_cases hs : (solveWithTolerance oracle c stats tol t).success = true
    · simp only [tryList, hs, if_pos, Option.some_inj] at h
      exact ⟨tol, by simp, h, h ▸ hs⟩
    · simp only [tryList, hs, if_neg, if_false] at h
      obtain ⟨tol', hmem, heq, hsucc⟩ := ih r h
      exact ⟨tol', by simp [hmem], heq, hsucc⟩

/-- Structure of a successful vacation-release phase: the success comes
from a single-tolerance attempt against some configuration reachable by
release steps, whose statistics are freshly recomputed; only the error
message is rewritten afterwards. -/
theorem releaseLoop_success_struct (oracle : SolverOracle) (maxTol timeLimit : Nat) :
    ∀ (entries : List VacEntry) (c : ScheduleConfig) (stats : PoolStats)
      (released : List (String × Date × Date)) (r : ScheduleResult),
      releaseLoop oracle maxTol timeLimit c stats released entries = r → r.success = true →
      ∃ c'' tol sol, ReleasedShape c c'' ∧ oracle c'' tol timeLimit = some sol ∧
        r.assignments = extractAssignments c'' sol ∧
        r.employee_stats = buildStats c'' (computePoolStats c'') (extractAssignments c'' sol) ∧
        r.tolerance_used = tol := by
  intro entries
  induction entries with
  | nil =>
    intro c stats released r h hs
    rw [← h] at hs
    simp [releaseLoop, mkFailure] at hs
  | cons v rest ih =>
    intro c stats released r h hs
    simp only [releaseLoop] at h
    split at h
    · rename_i r₀ htry
      have hr : r.assignments = r₀.assignments ∧
          r.employee_stats = r₀.employee_stats ∧
          r.tolerance_used = r₀.tolerance_used ∧ r₀.success = true := by
        by_cases he : (if (releaseFirst v c.employees).2 then
            released ++ [(v.emp, v.vstart, v.vend)] else released).isEmpty = true
        · rw [if_pos he] at h
          rw [← h]
          exact ⟨rfl, rfl, rfl, h ▸ hs⟩
        · rw [if_neg he] at h
          rw [← h]
          exact ⟨rfl, rfl, rfl, by rw [← h] at hs; simpa using hs⟩
      obtain ⟨tol, _, heq, _⟩ := tryList_success_struct oracle _ _ _ _ r₀ htry
      obtain ⟨sol, horacle, hfields⟩ :=
        solveWithTolerance_success_struct oracle _ _ tol timeLimit (by rw [heq]; exact hr.2.2.2)
      rw [heq] at hfields
      refine ⟨{ c with employees := (releaseFirst v c.employees).1 }, tol, sol,
        releaseFirst_shape c v, horacle, ?_, ?_, ?_⟩
      · rw [hr.1, hfields]
      · rw [hr.2.1, hfields]
      · rw [hr.2.2.1, hfields]
    · rename_i htry
      obtain ⟨c'', tol, sol, hshape, horacle, ha, hb, hc⟩ := ih _ _ _ r h hs
      exact ⟨c'', tol, sol, releasedShape_trans (releaseFirst_shape c v) hshape,
        horacle, ha, hb, hc⟩

/-- Structure of any successful solve_schedule run: the result comes from a
single oracle success against a configuration of the same shape (possibly
with vacations released), with freshly computed pool statistics. -/
theorem solve_schedule_success_struct (oracle : SolverOracle) (c : ScheduleConfig)
    (M T : Nat) (r : ScheduleResult) (h : solve_schedule oracle c M T = r)
    (hs : r.success = true) :
    ∃ c'' tol sol t, ReleasedShape c c'' ∧ oracle c'' tol t = some sol ∧
      r.assignments = extractAssignments c'' sol ∧
      r.employee_stats = buildStats c'' (computePoolStats c'') (extractAssignments c'' sol) ∧
      r.tolerance_used = tol := by
  simp only [solve_schedule] at h
  split at h
  · rw [← h] at hs; simp [mkFailure] at hs
  · split at h
    · rw [← h] at hs; simp [mkFailure] at hs
    · split at h
      · rw [← h] at hs; simp [mkFailure] at hs
      · split at h
        · rw [← h] at hs; simp [mkFailure] at hs
        · split at h
          · rename_i r₀ htry
            obtain ⟨tol, _, heq, _⟩ :=
              tryList_success_struct oracle _ _ _ _ r₀ htry
            obtain ⟨sol, horacle, hfields⟩ :=
              solveWithTolerance_success_struct oracle _ _ tol _
                (by rw [heq, h]; exact hs)
            rw [heq, h] at hfields
            exact ⟨c, tol, sol, _, releasedShape_refl c, horacle,
              by rw [hfields], by rw [hfields], by rw [hfields]⟩
          · obtain ⟨c'', tol, sol, hshape, horacle, ha, hb, hc⟩ :=
              releaseLoop_success_struct oracle M T _ c _ _ r h hs
            exact ⟨c'', tol, sol, T, hshape, horacle, ha, hb, hc⟩

/-- Decomposition of the hard-constraint conjunction. -/
theorem hardConstraints_parts {c : ScheduleConfig} {stats : PoolStats} {tol : Nat} {sol : Sol}
    (h : hardConstraints c stats tol sol = true) :
    onePerDayOk c sol = true ∧ fixedAssignmentsOk c stats sol = true ∧
    availabilityOk c sol = true ∧ patternOk c stats sol = true ∧
    extraWeekendOk c stats sol = true ∧ linkOk c sol = true ∧
    fairnessOk c stats tol sol = true := by
  simp only [hardConstraints, Bool.and_eq_true] at h
  tauto

/-- Unfolding a true availability check. -/
theorem is_available_true {e : Employee} {d : Date} (h : e.is_available d = true) :
    e.forbidden_weekdays.contains (weekdayOf d) = false ∧
    ∀ v ∈ e.vacation_ranges, ¬(v.1 ≤ d ∧ d ≤ v.2) := by
  unfold Employee.is_available at h
  by_cases h1 : e.forbidden_weekdays.contains (weekdayOf d) = true
  · rw [if_pos h1] at h; cases h
  · rw [if_neg h1] at h
    by_cases h2 : e.vacation_ranges.any (fun v => v.1 ≤ d && d ≤ v.2) = true
    · rw [if_pos h2] at h; cases h
    · refine ⟨by simpa using h1, ?_⟩
      intro v hv hc
      exact h2 (List.any_eq_true.mpr ⟨v, hv, by simp [hc.1, hc.2]⟩)

/-- The example oracle for scenario 1 is sound. -/
theorem soundExOracle1 : SoundOracle exOracle1 := by
  intro c tol t sol h
  unfold exOracle1 at h
  split at h
  · rename_i hc
    obtain ⟨h1, h2⟩ := hc
    subst h1; subst h2
    cases h
    decide
  · cases h

/-- The example oracle for scenario 2 is sound. -/
theorem soundExOracle2 : SoundOracle exOracle2 := by
  intro c tol t sol h
  unfold exOracle2 at h
  split at h
  · rename_i hc
    obtain ⟨h1, h2⟩ := hc
    subst h1; subst h2
    cases h
    decide
  · cases h

/-- The example oracle for the fully released configuration is sound. -/
theorem soundExOracleFull : SoundOracle exOracleFull := by
  intro c tol t sol h
  unfold exOracleFull at h
  split at h
  · rename_i hc
    obtain ⟨h1, h2⟩ := hc
    subst h1; subst h2
    cases h
    decide
  · cases h

/-- Claim C1: for every result returned by solve_schedule with success set,
the assignment mapping has every date of the inclusive start-to-end range
exactly once as a key and no other keys, each mapped to the name of some
employee of the configuration. -/
theorem claim1_assignments_cover_range (oracle : SolverOracle) (c : ScheduleConfig)
    (M T : Nat) (hsound : SoundOracle oracle)
    (hs : (solve_schedule oracle c M T).success = true) :
    (solve_schedule oracle c M T).assignments.map Prod.fst = c.get_all_dates ∧
    c.get_all_dates.Nodup ∧
    ∀ p ∈ (solve_schedule oracle c M T).assignments, p.2 ∈ c.employees.map Employee.name := by
  obtain ⟨c'', tol, sol, t, hshape, horacle, hassign, _, _⟩ :=
    solve_schedule_success_struct oracle c M T _ rfl hs
  have hard := hsound c'' tol t sol horacle
  have hpt := onePerDay_pointwise (hardConstraints_parts hard).1
  have hcov := extractOn_cover c'' sol c''.get_all_dates hpt
  refine ⟨?_, ?_, ?_⟩
  · rw [hassign]
    show (extractOn c'' sol c''.get_all_dates).map Prod.fst = c.get_all_dates
    rw [hcov.1, shape_dates hshape]
  · exact List.nodup_range' c.start_date (c.end_date + 1 - c.start_date)
  · intro p hp
    rw [hassign] at hp
    have := hcov.2 p hp
    rw [shape_names hshape] at this
    exact this

/-- Witness for claim C1 at scenario 1. -/
theorem claim1_witness :
    SoundOracle exOracle1 ∧ (solve_schedule exOracle1 exCfg1 1 60).success = true ∧
    ((solve_schedule exOracle1 exCfg1 1 60).assignments.map Prod.fst = exCfg1.get_all_dates ∧
     exCfg1.get_all_dates.Nodup ∧
     ∀ p ∈ (solve_schedule exOracle1 exCfg1 1 60).assignments,
       p.2 ∈ exCfg1.employees.map Employee.name) :=
  ⟨soundExOracle1, by decide,
    claim1_assignments_cover_range exOracle1 exCfg1 1 60 soundExOracle1 (by decide)⟩

/-- Claim C2: for every successful result, every assigned (date, name) pair
honors the availability of the employee as it stood for that attempt: the
weekday is not forbidden and the date lies in none of the vacation ranges. -/
theorem claim2_assignments_available (oracle : SolverOracle) (c : ScheduleConfig)
    (M T : Nat) (hsound : SoundOracle oracle)
    (hs : (solve_schedule oracle c M T).success = true) :
    ∃ c', ReleasedShape c c' ∧
      AssignmentsRespectAvailability (solve_schedule oracle c M T) c' := by
  obtain ⟨c'', tol, sol, t, hshape, horacle, hassign, _, _⟩ :=
    solve_schedule_success_struct oracle c M T _ rfl hs
  have hard := hsound c'' tol t sol horacle
  have havail := (hardConstraints_parts hard).2.2.1
  refine ⟨c'', hshape, ?_⟩
  intro p hp e he hename
  rw [hassign] at hp
  obtain ⟨hdmem, e₀, _, _, hpname, hassigned⟩ := mem_extractOn hp
  have hassigne : sol.assign e.name p.1 = true := by
    rw [hename, hpname]
    exact hassigned
  have hav := (List.all_eq_true.mp ((List.all_eq_true.mp havail) e he)) p.1 hdmem
  rw [hassigne] at hav
  have : e.is_available p.1 = true := by
    cases hae : e.is_available p.1
    · rw [hae] at hav; simp at hav
    · rfl
  exact is_available_true this

/-- Witness for claim C2 at scenario 2 (vacations present). -/
theorem claim2_witness :
    SoundOracle exOracle2 ∧ (solve_schedule exOracle2 exCfg2 1 60).success = true ∧
    (∃ c', ReleasedShape exCfg2 c' ∧
      AssignmentsRespectAvailability (solve_schedule exOracle2 exCfg2 1 60) c') :=
  ⟨soundExOracle2, by decide,
    claim2_assignments_available exOracle2 exCfg2 1 60 soundExOracle2 (by decide)⟩

/-- The pool statistics carry the fixed-day dictionary unchanged. -/
theorem cps_fixed_dow (c : ScheduleConfig) :
    (computePoolStats c).fixed_dow = fixedDow c := rfl

/-- With pairwise distinct weekdays, filtering by the weekday of a member
isolates that member. -/
theorem filter_dow_eq :
    ∀ l : List FixedAssignment, (l.map (fun fa => fa.day_of_week)).Nodup →
      ∀ fa ∈ l, l.filter (fun g => g.day_of_week == fa.day_of_week) = [fa] := by
  intro l
  induction l with
  | nil => intro _ fa hfa; cases hfa
  | cons g t ih =>
    intro hnd fa hfa
    rw [List.map_cons] at hnd
    obtain ⟨hg, ht⟩ := List.nodup_cons.mp hnd
    rcases List.mem_cons.mp hfa with hfa | hfa
    · subst hfa
      rw [List.filter_cons, if_pos (by simp)]
      have : t.filter (fun g => g.day_of_week == fa.day_of_week) = [] := by
        apply List.filter_eq_nil_iff.mpr
        intro x hx hbeq
        exact hg (by
          have hxd : x.day_of_week = fa.day_of_week := by simpa using hbeq
          rw [← hxd]
          exact List.mem_map_of_mem _ hx)
      rw [this]
    · have hgd : ¬(g.day_of_week == fa.day_of_week) = true := by
        intro hbeq
        have : g.day_of_week = fa.day_of_week := by simpa using hbeq
        exact hg (by rw [this]; exact List.mem_map_of_mem _ hfa)
      rw [List.filter_cons, if_neg hgd]
      exact ih ht fa hfa

/-- With pairwise distinct weekdays, the fixed-day dictionary maps each
fixed assignment weekday to its employee. -/
theorem fixedDow_eq_of_nodup (c : ScheduleConfig)
    (hnd : (c.fixed_assignments.map (fun fa => fa.day_of_week)).Nodup)
    (fa : FixedAssignment) (hfa : fa ∈ c.fixed_assignments) :
    fixedDow c fa.day_of_week = some fa.employee_name := by
  unfold fixedDow
  rw [filter_dow_eq c.fixed_assignments hnd fa hfa]
  rfl

/-- Pointwise form of the availability constraint. -/
theorem availability_pointwise {c : ScheduleConfig} {sol : Sol}
    (h : availabilityOk c sol = true) :
    ∀ e ∈ c.employees, ∀ d ∈ c.get_all_dates, e.is_available d = false →
      sol.assign e.name d = false := by
  intro e he d hd hav
  have := (List.all_eq_true.mp ((List.all_eq_true.mp h) e he)) d hd
  rw [hav] at this
  simpa using this

/-- Pointwise form of the fixed-assignment constraint. -/
theorem fixed_pointwise {c : ScheduleConfig} {stats : PoolStats} {sol : Sol}
    (h : fixedAssignmentsOk c stats sol = true) :
    ∀ d ∈ c.get_all_dates, ∀ nm emp, stats.fixed_dow (weekdayOf d) = some nm →
      c.get_employee_by_name nm = some emp → emp.is_available d = true →
      sol.assign nm d = true := by
  intro d hd nm emp h1 h2 h3
  have hthis := (List.all_eq_true.mp h) d hd
  simp only [h1, h2] at hthis
  rw [if_pos h3] at hthis
  exact hthis

/-- A found employee contributes its pair to the extraction. -/
theorem pair_mem_extractOn {c : ScheduleConfig} {sol : Sol} {l : List Date} {d : Date}
    {e₀ : Employee} (hd : d ∈ l)
    (hfind : c.employees.find? (fun e => sol.assign e.name d) = some e₀) :
    (d, e₀.name) ∈ extractOn c sol l :=
  List.mem_filterMap.mpr ⟨d, hd, by rw [hfind]; rfl⟩

/-- Claim C3: for every successful result and every fixed assignment
(weekday D, employee E) of a configuration with pairwise distinct fixed
weekdays, every date of weekday D on which E is available (as the attempt
ran) is assigned to E, and every date of weekday D on which E is
unavailable is assigned to some other employee. -/
theorem claim3_fixed_assignments_honored (oracle : SolverOracle) (c : ScheduleConfig)
    (M T : Nat) (hsound : SoundOracle oracle)
    (hnd : (c.fixed_assignments.map (fun fa => fa.day_of_week)).Nodup)
    (hs : (solve_schedule oracle c M T).success = true) :
    ∃ c', ReleasedShape c c' ∧
      FixedAssignmentsHonored (solve_schedule oracle c M T) c c' := by
  obtain ⟨c'', tol, sol, t, hshape, horacle, hassign, _, _⟩ :=
    solve_schedule_success_struct oracle c M T _ rfl hs
  have hard := hsound c'' tol t sol horacle
  obtain ⟨h1, h2, h3, _⟩ := hardConstraints_parts hard
  have hpt := onePerDay_pointwise h1
  refine ⟨c'', hshape, ?_⟩
  intro fa hfa emp hemp d hd hdow
  have hd'' : d ∈ c''.get_all_dates := by rw [shape_dates hshape]; exact hd
  have hdowfix : (computePoolStats c'').fixed_dow (weekdayOf d) = some fa.employee_name := by
    rw [cps_fixed_dow, hdow, shape_fixedDow hshape]
    exact fixedDow_eq_of_nodup c hnd fa hfa
  have hempname : emp.name = fa.employee_name := by
    simpa using List.find?_some hemp
  have hempmem : emp ∈ c''.employees := List.mem_of_find?_eq_some hemp
  constructor
  · intro havail
    have hassigned : sol.assign fa.employee_name d = true := by
      exact fixed_pointwise h2 d hd'' fa.employee_name emp hdowfix hemp havail
    have hassigned' : sol.assign emp.name d = true := by rw [hempname]; exact hassigned
    obtain ⟨e₀, hfind, hname⟩ :=
      find_name_eq sol d c''.employees (hpt d hd'') emp hempmem hassigned'
    have hmem := pair_mem_extractOn hd'' hfind
    rw [hassign]
    rw [hname, hempname] at hmem
    exact hmem
  · intro hunavail
    have hzero : sol.assign fa.employee_name d = false := by
      have := availability_pointwise h3 emp hempmem d hd'' hunavail
      rw [hempname] at this
      exact this
    have hpos : 0 < c''.employees.countP (fun e => sol.assign e.name d) := by
      have := hpt d hd''; omega
    obtain ⟨w, hwmem, hwsat⟩ := List.countP_pos_iff.mp hpos
    obtain ⟨e₀, hfind, _⟩ := find_name_eq sol d c''.employees (hpt d hd'') w hwmem hwsat
    refine ⟨e₀.name, ?_, ?_⟩
    · rw [hassign]
      exact pair_mem_extractOn hd'' hfind
    · intro hne
      have := List.find?_some hfind
      rw [hne] at this
      rw [hzero] at this
      cases this

/-- Witness for claim C3 at scenario 2 (a fixed Monday assignment whose
employee is on vacation on the only Monday). -/
theorem claim3_witness :
    SoundOracle exOracle2 ∧
    (exCfg2.fixed_assignments.map (fun fa => fa.day_of_week)).Nodup ∧
    (solve_schedule exOracle2 exCfg2 1 60).success = true ∧
    (∃ c', ReleasedShape exCfg2 c' ∧
      FixedAssignmentsHonored (solve_schedule exOracle2 exCfg2 1 60) exCfg2 c') :=
  ⟨soundExOracle2, by decide, by decide,
    claim3_fixed_assignments_honored exOracle2 exCfg2 1 60 soundExOracle2 (by decide) (by decide)⟩

/-- The per-employee fairness bounds hold for every employee of a
satisfying solution. -/
theorem fairness_fairBounds {c : ScheduleConfig} {stats : PoolStats} {tol : Nat} {sol : Sol}
    (h : fairnessOk c stats tol sol = true) :
    ∀ e ∈ c.employees, fairBoundsOk c stats tol sol e = true := by
  simp only [fairnessOk, Bool.and_eq_true] at h
  intro e he
  have := List.all_eq_true.mp h.1.1.1.1.1 e he
  simp only [Bool.and_eq_true] at this
  exact this.1.2

/-- The facts extracted from a true per-employee fairness bound check:
restricted-day pinning and the two weekend-pool bounds. -/
theorem fairBounds_facts {c : ScheduleConfig} {stats : PoolStats} {tol : Nat} {sol : Sol}
    {e : Employee} (h : fairBoundsOk c stats tol sol e = true) :
    (satOnly e = true → assignedCount sol e.name c.get_sunday_dates = 0) ∧
    (sunOnly e = true → assignedCount sol e.name c.get_saturday_dates = 0) ∧
    (max 0 (poolFloor stats.remaining_weekends_effective c.employees.length - 1) ≤
      (assignedCount sol e.name c.get_weekend_dates : Int) -
        (if [5, 6].any (fun dow => stats.fixed_dow dow == some e.name) then (stats.H : Int)
         else 0) -
        (if e.is_extra_weekend then (stats.H : Int) else 0)) ∧
    ((assignedCount sol e.name c.get_weekend_dates : Int) -
        (if [5, 6].any (fun dow => stats.fixed_dow dow == some e.name) then (stats.H : Int)
         else 0) -
        (if e.is_extra_weekend then (stats.H : Int) else 0) ≤
      poolCeil stats.remaining_weekends_effective c.employees.length + tol + 1) := by
  simp only [fairBoundsOk, Bool.and_eq_true, decide_eq_true_eq] at h
  refine ⟨?_, ?_, h.1.1.2, h.1.2⟩
  · intro hso
    have := h.2
    rw [if_pos hso] at this
    simpa using this
  · intro hso
    have hthis := h.2
    by_cases hsat : satOnly e = true
    · exfalso
      simp only [satOnly, Bool.and_eq_true] at hsat
      simp only [sunOnly, Bool.and_eq_true] at hso
      have h5 : canSat e = true := hsat.1
      have h5' : (!canSat e) = true := hso.2
      rw [h5] at h5'
      cases h5'
    · rw [if_neg hsat, if_pos hso] at hthis
      simpa using hthis

/-- Claim C7 (amended): a Saturday/Sunday-restricted employee has the day
they cannot work pinned to zero assignments, and their pool weekend count
obeys only the general tolerance-parameterized fairness bounds. -/
theorem claim7_restricted_pinning (oracle : SolverOracle) (c : ScheduleConfig)
    (M T : Nat) (hsound : SoundOracle oracle)
    (hs : (solve_schedule oracle c M T).success = true) :
    ∃ c' tol, ReleasedShape c c' ∧
      (solve_schedule oracle c M T).tolerance_used = tol ∧
      RestrictedWeekendProp c' (solve_schedule oracle c M T) tol := by
  obtain ⟨c'', tol, sol, t, hshape, horacle, hassign, _, htol⟩ :=
    solve_schedule_success_struct oracle c M T _ rfl hs
  have hard := hsound c'' tol t sol horacle
  obtain ⟨h1, _, _, _, _, _, h7⟩ := hardConstraints_parts hard
  have hpt := onePerDay_pointwise h1
  refine ⟨c'', tol, hshape, htol, ?_⟩
  intro e he
  obtain ⟨hsat, hsun, hlo, hhi⟩ := fairBounds_facts (fairness_fairBounds h7 e he)
  have hsuncnt : sundayCountIn (solve_schedule oracle c M T) e.name =
      assignedCount sol e.name c''.get_sunday_dates := by
    unfold sundayCountIn
    rw [hassign]
    exact countP_extractOn c'' sol e he (fun d => weekdayOf d == 6) c''.get_all_dates hpt
  have hsatcnt : saturdayCountIn (solve_schedule oracle c M T) e.name =
      assignedCount sol e.name c''.get_saturday_dates := by
    unfold saturdayCountIn
    rw [hassign]
    exact countP_extractOn c'' sol e he (fun d => weekdayOf d == 5) c''.get_all_dates hpt
  have hwecnt : weekendCountIn (solve_schedule oracle c M T) e.name =
      assignedCount sol e.name c''.get_weekend_dates := by
    unfold weekendCountIn
    rw [hassign]
    exact countP_extractOn c'' sol e he (fun d => decide (5 ≤ weekdayOf d))
      c''.get_all_dates hpt
  have hvar : weekendVarOf c'' (solve_schedule oracle c M T) e =
      (assignedCount sol e.name c''.get_weekend_dates : Int) -
        (if [5, 6].any (fun dow => (computePoolStats c'').fixed_dow dow == some e.name) then
          ((computePoolStats c'').H : Int) else 0) -
        (if e.is_extra_weekend then ((computePoolStats c'').H : Int) else 0) := by
    unfold weekendVarOf
    rw [hwecnt]
  refine ⟨?_, ?_, ?_, ?_⟩
  · intro hso
    rw [hsuncnt]
    exact hsat hso
  · intro hso
    rw [hsatcnt]
    exact hsun hso
  · rw [hvar]
    exact hlo
  · rw [hvar]
    exact hhi

/-- Witness for the amended claim C7 at scenario 1, where A is forbidden
on Sunday. -/
theorem claim7_witness :
    SoundOracle exOracle1 ∧ (solve_schedule exOracle1 exCfg1 1 60).success = true ∧
    (∃ c' tol, ReleasedShape exCfg1 c' ∧
      (solve_schedule exOracle1 exCfg1 1 60).tolerance_used = tol ∧
      RestrictedWeekendProp c' (solve_schedule exOracle1 exCfg1 1 60) tol) :=
  ⟨soundExOracle1, by decide,
    claim7_restricted_pinning exOracle1 exCfg1 1 60 soundExOracle1 (by decide)⟩

/-- Counterexample to claim C7 as stated: with a sound oracle, scenario 1
produces a successful solve attempt in which the Sunday-forbidden employee
A (excluded from the Saturday spread) has a pool weekend count of 1, while
the pool ceiling of the remaining weekend share is 2.  The model never pins
the weekend count of a restricted employee to the pool ceiling. -/
theorem claim7_counterexample :
    SoundOracle exOracle1 ∧
    (solve_schedule exOracle1 exCfg1 1 60).success = true ∧
    (exCfg1.employees.find? (fun e => e.name == nA)).map satOnly = some true ∧
    lookupD (computePoolStats exCfg1).fixed_weekends_per_emp nA = 0 ∧
    weekendCountIn (solve_schedule exOracle1 exCfg1 1 60) nA = 1 ∧
    poolCeil (computePoolStats exCfg1).remaining_weekends_effective
      exCfg1.employees.length = 2 ∧
    ((weekendCountIn (solve_schedule exOracle1 exCfg1 1 60) nA : Int) ≠
      poolCeil (computePoolStats exCfg1).remaining_weekends_effective
        exCfg1.employees.length) :=
  ⟨soundExOracle1, by decide, by decide, by decide, by decide, by decide, by decide⟩

/-- Lookup in a quota dictionary built over a name list. -/
theorem lookupD_map_names (q : String → Nat) :
    ∀ (l : List String) (k : String),
      lookupD (l.map (fun n => (n, q n))) k = if k ∈ l then q k else 0 := by
  intro l
  induction l with
  | nil => intro k; simp [lookupD]
  | cons n t ih =>
    intro k
    by_cases hk : (n == k) = true
    · have : n = k := by simpa using hk
      subst this
      simp [lookupD, List.find?]
    · have hne : ¬(k = n) := by
        intro h
        exact hk (by simp [h])
      simp only [List.map_cons, lookupD, List.find?, hk]
      have := ih k
      simp only [lookupD] at this
      rw [this]
      by_cases hkt : k ∈ t
      · rw [if_pos hkt, if_pos (by simp [hkt])]
      · rw [if_neg hkt, if_neg (by simp [hne, hkt])]

/-- Finding a name key in a stats dictionary built over employees. -/
theorem find_map_name (g : Employee → EmployeeStats) :
    ∀ (l : List Employee) (n : String), (∃ e ∈ l, e.name = n) →
      ∃ e₀, (l.map (fun e => (e.name, g e))).find? (fun p => p.1 == n) =
        some (e₀.name, g e₀) ∧ e₀.name = n := by
  intro l
  induction l with
  | nil => intro n h; obtain ⟨e, he, _⟩ := h; cases he
  | cons e t ih =>
    intro n h
    by_cases hk : (e.name == n) = true
    · refine ⟨e, ?_, by simpa using hk⟩
      rw [List.map_cons]
      simp [List.find?_cons, hk]
    · obtain ⟨w, hw, hwn⟩ := h
      rcases List.mem_cons.mp hw with hw | hw
      · exfalso
        apply hk
        rw [← hw]
        simp [hwn]
      · obtain ⟨e₀, hf, hn⟩ := ih n ⟨w, hw, hwn⟩
        refine ⟨e₀, ?_, hn⟩
        rw [List.map_cons]
        simp [List.find?_cons, hk, hf]

/-- The fixed counts of a per-employee statistic are the quota lookups. -/
theorem buildEmployeeStats_fixed (c : ScheduleConfig) (stats : PoolStats)
    (asg : List (Date × String)) (e : Employee) :
    (buildEmployeeStats c stats asg e).fixed_weekdays =
      lookupD stats.fixed_weekdays_per_emp e.name ∧
    (buildEmployeeStats c stats asg e).fixed_weekends =
      lookupD stats.fixed_weekends_per_emp e.name := ⟨rfl, rfl⟩

/-- Dictionary lookup in the statistics of a built result. -/
theorem statsLookup_buildStats {r : ScheduleResult} {c : ScheduleConfig} {stats : PoolStats}
    {asg : List (Date × String)} (hr : r.employee_stats = buildStats c stats asg)
    {e : Employee} (he : e ∈ c.employees) :
    ∃ s, statsLookup r e.name = some s ∧
      s.fixed_weekdays = lookupD stats.fixed_weekdays_per_emp e.name ∧
      s.fixed_weekends = lookupD stats.fixed_weekends_per_emp e.name := by
  unfold statsLookup
  rw [hr]
  unfold buildStats
  rw [← List.map_reverse]
  obtain ⟨e₀, hf, hn⟩ := find_map_name (buildEmployeeStats c stats asg) c.employees.reverse
    e.name ⟨e, List.mem_reverse.mpr he, rfl⟩
  rw [hf]
  refine ⟨buildEmployeeStats c stats asg e₀, rfl, ?_, ?_⟩
  · rw [(buildEmployeeStats_fixed c stats asg e₀).1, hn]
  · rw [(buildEmployeeStats_fixed c stats asg e₀).2, hn]

/-- Claim C8: the pool statistics give every employee holding an effective
recurring fixed assignment the full quota H in the matching pool, the
quotas are unchanged by any vacation rewriting, and the statistics of a
successful result carry exactly these quota-based fixed counts. -/
theorem claim8_quota_based_fixed_counts (oracle : SolverOracle) (c : ScheduleConfig)
    (M T : Nat) (hs : (solve_schedule oracle c M T).success = true) :
    QuotaInvariantProp c ∧ QuotaFullProp c ∧
      StatsQuotaProp c (solve_schedule oracle c M T) := by
  refine ⟨?_, ⟨?_, ?_⟩, ?_⟩
  · intro c' hshape n
    exact ⟨by rw [(shape_quotas hshape).1], by rw [(shape_quotas hshape).2]⟩
  · intro n dow h5 hlink hfd hnmem
    rw [cps_fwd_per_emp, lookupD_map_names, if_pos (List.mem_dedup.mpr hnmem)]
    have hany : [0, 1, 2, 3, 4].any (fun dow =>
        fixedDow c dow == some n && !(dow == 4 && c.link_friday_saturday)) = true := by
      apply List.any_eq_true.mpr
      refine ⟨dow, ?_, ?_⟩
      · have : dow = 0 ∨ dow = 1 ∨ dow = 2 ∨ dow = 3 ∨ dow = 4 := by omega
        rcases this with h | h | h | h | h <;> simp [h]
      · by_cases h4 : dow = 4
        · have hlf : c.link_friday_saturday = false := by
            cases hl : c.link_friday_saturday
            · rfl
            · exact absurd ⟨h4, hl⟩ hlink
          simp [hfd, hlf]
        · simp [hfd, h4]
    rw [if_pos hany]
    rfl
  · intro n dow h5 h6 hfd hnmem
    rw [cps_fwe_per_emp, lookupD_map_names, if_pos (List.mem_dedup.mpr hnmem)]
    have hany : [5, 6].any (fun dow => fixedDow c dow == some n) = true := by
      apply List.any_eq_true.mpr
      refine ⟨dow, ?_, by simp [hfd]⟩
      have : dow = 5 ∨ dow = 6 := by omega
      rcases this with h | h <;> simp [h]
    rw [if_pos hany]
    rfl
  · obtain ⟨c'', tol, sol, t, hshape, horacle, _, hstats, _⟩ :=
      solve_schedule_success_struct oracle c M T _ rfl hs
    refine ⟨c'', hshape, ?_⟩
    intro e he
    obtain ⟨s, hls, hwd, hwe⟩ := statsLookup_buildStats hstats he
    refine ⟨s, hls, ?_, ?_⟩
    · rw [hwd, (shape_quotas hshape).1]
    · rw [hwe, (shape_quotas hshape).2]

/-- Witness for claim C8 at scenario 2: the fixed Monday employee A is on
vacation on the only Monday, yet has fixed_weekdays 1 = H while working 0
Mondays. -/
theorem claim8_witness :
    (solve_schedule exOracle2 exCfg2 1 60).success = true ∧
    (computePoolStats exCfg2).H = 1 ∧
    lookupD (computePoolStats exCfg2).fixed_weekdays_per_emp nA = 1 ∧
    (∃ s, statsLookup (solve_schedule exOracle2 exCfg2 1 60) nA = some s ∧
      s.fixed_weekdays = 1) ∧
    mondayCountIn (solve_schedule exOracle2 exCfg2 1 60) nA = 0 ∧
    (QuotaInvariantProp exCfg2 ∧ QuotaFullProp exCfg2 ∧
      StatsQuotaProp exCfg2 (solve_schedule exOracle2 exCfg2 1 60)) :=
  ⟨by decide, by decide, by decide, by decide, by decide,
    claim8_quota_based_fixed_counts exOracle2 exCfg2 1 60 (by decide)⟩

/-- A positive week count needs a nonempty date range. -/
theorem num_weeks_pos_dates {c : ScheduleConfig} (h : 0 < c.get_num_weeks) :
    c.get_all_dates ≠ [] := by
  intro hd
  unfold ScheduleConfig.get_num_weeks at h
  rw [hd] at h
  simp at h

/-- The remaining weekday pool of the statistics, unfolded. -/
theorem cps_remaining_wd_eq (c : ScheduleConfig) :
    (computePoolStats c).remaining_weekdays =
      ((computePoolStats c).total_weekdays : Int) -
        (((computePoolStats c).fixed_weekdays_per_emp.map Prod.snd).sum : Int) := rfl

/-- The effective remaining weekend pool of the statistics, unfolded. -/
theorem cps_remaining_we_eq (c : ScheduleConfig) :
    (computePoolStats c).remaining_weekends_effective =
      ((computePoolStats c).total_weekends : Int) -
        (((computePoolStats c).fixed_weekends_per_emp.map Prod.snd).sum : Int) -
        ((computePoolStats c).extra_weekend_quota : Int) := rfl

/-- The extra weekend quota of the statistics, unfolded. -/
theorem cps_extra_quota_eq (c : ScheduleConfig) :
    (computePoolStats c).extra_weekend_quota =
      if (c.get_extra_weekend_employee).isSome then c.get_num_weeks else 0 := rfl

/-- A positive fixed weekday quota sum needs employees and dates. -/
theorem wd_quota_sum_pos {c : ScheduleConfig}
    (hpos : 0 < ((computePoolStats c).fixed_weekdays_per_emp.map Prod.snd).sum) :
    c.employees ≠ [] ∧ c.get_all_dates ≠ [] := by
  constructor
  · intro he
    rw [cps_fwd_per_emp, he] at hpos
    simp at hpos
  · apply num_weeks_pos_dates
    by_contra hH
    have hH0 : c.get_num_weeks = 0 := by omega
    rw [cps_fwd_per_emp] at hpos
    have hz : ∀ x ∈ (((c.employees.map Employee.name).dedup).map (fun n =>
        (n, if [0, 1, 2, 3, 4].any (fun dow =>
              fixedDow c dow == some n && !(dow == 4 && c.link_friday_saturday)) then
            c.get_num_weeks else 0))).map Prod.snd, x = 0 := by
      intro x hx
      obtain ⟨p, hp, hpx⟩ := List.mem_map.mp hx
      obtain ⟨n, _, hn⟩ := List.mem_map.mp hp
      rw [← hpx, ← hn]
      simp [hH0]
    rw [List.sum_eq_zero hz] at hpos
    exact absurd hpos (by omega)

/-- A positive fixed weekend quota sum needs employees and dates. -/
theorem we_quota_sum_pos {c : ScheduleConfig}
    (hpos : 0 < ((computePoolStats c).fixed_weekends_per_emp.map Prod.snd).sum) :
    c.employees ≠ [] ∧ c.get_all_dates ≠ [] := by
  constructor
  · intro he
    rw [cps_fwe_per_emp, he] at hpos
    simp at hpos
  · apply num_weeks_pos_dates
    by_contra hH
    have hH0 : c.get_num_weeks = 0 := by omega
    rw [cps_fwe_per_emp] at hpos
    have hz : ∀ x ∈ (((c.employees.map Employee.name).dedup).map (fun n =>
        (n, if [5, 6].any (fun dow => fixedDow c dow == some n) then
            c.get_num_weeks else 0))).map Prod.snd, x = 0 := by
      intro x hx
      obtain ⟨p, hp, hpx⟩ := List.mem_map.mp hx
      obtain ⟨n, _, hn⟩ := List.mem_map.mp hp
      rw [← hpx, ← hn]
      simp [hH0]
    rw [List.sum_eq_zero hz] at hpos
    exact absurd hpos (by omega)

/-- A negative pool implies a nonempty employee list and date range, so the
two earlier guards of solve_schedule cannot fire first. -/
theorem negative_pool_nonempty (c : ScheduleConfig)
    (h : (computePoolStats c).remaining_weekdays < 0 ∨
         (computePoolStats c).remaining_weekends_effective < 0) :
    c.employees ≠ [] ∧ c.get_all_dates ≠ [] := by
  rcases h with h | h
  · rw [cps_remaining_wd_eq] at h
    exact wd_quota_sum_pos (by omega)
  · rw [cps_remaining_we_eq] at h
    by_cases hq : 0 < ((computePoolStats c).fixed_weekends_per_emp.map Prod.snd).sum
    · exact we_quota_sum_pos hq
    · have hquota : 0 < (computePoolStats c).extra_weekend_quota := by omega
      rw [cps_extra_quota_eq] at hquota
      by_cases hsome : (c.get_extra_weekend_employee).isSome = true
      · rw [if_pos hsome] at hquota
        refine ⟨?_, num_weeks_pos_dates hquota⟩
        intro he
        unfold ScheduleConfig.get_extra_weekend_employee at hsome
        rw [he] at hsome
        cases hsome
      · rw [if_neg hsome] at hquota
        exact absurd hquota (by omega)

/-- Claim C4: a configuration with a negative remaining weekday pool or a
negative effective remaining weekend pool makes solve_schedule return the
capacity-specific failure immediately; the result is the same for every
oracle, so no solver invocation occurs. -/
theorem claim4_capacity_no_solve (c : ScheduleConfig) (M T : Nat)
    (h : (computePoolStats c).remaining_weekdays < 0 ∨
         (computePoolStats c).remaining_weekends_effective < 0) :
    ∀ oracle : SolverOracle, solve_schedule oracle c M T =
      (if (computePoolStats c).remaining_weekdays < 0 then
        mkFailure (ErrMsg.weekdayPoolExhausted (computePoolStats c).total_fixed_weekdays
          (computePoolStats c).total_weekdays)
       else
        mkFailure (ErrMsg.weekendPoolExhausted (computePoolStats c).total_fixed_weekends
          (computePoolStats c).extra_weekend_quota (computePoolStats c).total_weekends)) := by
  obtain ⟨hemp, hdates⟩ := negative_pool_nonempty c h
  intro oracle
  simp only [solve_schedule]
  rw [if_neg (by simpa using hemp), if_neg (by simpa using hdates)]
  by_cases hwd : (computePoolStats c).remaining_weekdays < 0
  · rw [if_pos hwd, if_pos hwd]
  · rw [if_neg hwd, if_neg hwd, if_pos (h.resolve_left hwd)]

/-- Witness for claim C4: three weekday dates against five fixed weekday
quotas give a remaining weekday pool of -2. -/
theorem claim4_witness :
    ((computePoolStats exCfg4).remaining_weekdays < 0 ∨
     (computePoolStats exCfg4).remaining_weekends_effective < 0) ∧
    (∀ oracle : SolverOracle, solve_schedule oracle exCfg4 1 60 =
      (if (computePoolStats exCfg4).remaining_weekdays < 0 then
        mkFailure (ErrMsg.weekdayPoolExhausted (computePoolStats exCfg4).total_fixed_weekdays
          (computePoolStats exCfg4).total_weekdays)
       else
        mkFailure (ErrMsg.weekendPoolExhausted (computePoolStats exCfg4).total_fixed_weekends
          (computePoolStats exCfg4).extra_weekend_quota
          (computePoolStats exCfg4).total_weekends))) :=
  ⟨Or.inl (by decide), claim4_capacity_no_solve exCfg4 1 60 (Or.inl (by decide))⟩

/-- Claim C9: a structurally clean configuration with exactly two employees
flagged extra weekend is rejected by the validator with exactly one error
citing the count 2, before any pool or capacity check runs. -/
theorem claim9_two_extra_weekend (c : ScheduleConfig)
    (h1 : c.employees ≠ []) (h2 : c.get_all_dates ≠ [])
    (h3 : (c.employees.map Employee.name).Nodup)
    (h4 : c.employees.countP (fun e => e.is_extra_weekend) = 2) :
    validate_config c = (false, [VMsg.tooManyExtraWeekend 2]) := by
  simp only [validate_config]
  rw [if_neg (by simpa using h1), if_neg (by simpa using h2)]
  rw [if_neg (by simp [List.Nodup.dedup h3])]
  rw [h4, if_pos (by omega)]

/-- Witness for claim C9. -/
theorem claim9_witness :
    exCfg9.employees ≠ [] ∧ exCfg9.get_all_dates ≠ [] ∧
    (exCfg9.employees.map Employee.name).Nodup ∧
    exCfg9.employees.countP (fun e => e.is_extra_weekend) = 2 ∧
    validate_config exCfg9 = (false, [VMsg.tooManyExtraWeekend 2]) :=
  ⟨by decide, by decide, by decide, by decide,
    claim9_two_extra_weekend exCfg9 (by decide) (by decide) (by decide) (by decide)⟩

/-- A release step fires whenever some employee matches the entry name and
still has enough vacations for the saved index. -/
theorem releaseFirst_fires (v : VacEntry) :
    ∀ l : List Employee, (∃ e ∈ l, e.name = v.emp ∧ v.idx < e.vacation_ranges.length) →
      (releaseFirst v l).2 = true := by
  intro l
  induction l with
  | nil => intro h; obtain ⟨e, he, _⟩ := h; cases he
  | cons e es ih =>
    intro h
    by_cases hc : (e.name == v.emp && v.idx < e.vacation_ranges.length) = true
    · simp only [releaseFirst, hc, if_pos]
    · obtain ⟨w, hw, hwn, hwi⟩ := h
      rcases List.mem_cons.mp hw with hw | hw
      · exfalso
        apply hc
        rw [← hw]
        simp [hwn, hwi]
      · simp only [releaseFirst, hc, if_neg, if_false]
        exact ih ⟨w, hw, hwn, hwi⟩

/-- Every collected vacation entry names an employee that holds a vacation
at the saved index. -/
theorem collectVacations_valid (c : ScheduleConfig) :
    ∀ v ∈ collectVacations c, ∃ e ∈ c.employees,
      e.name = v.emp ∧ v.idx < e.vacation_ranges.length := by
  intro v hv
  obtain ⟨e, he, hmem⟩ := List.mem_flatMap.mp hv
  obtain ⟨p, hp, hpv⟩ := List.mem_map.mp hmem
  refine ⟨e, he, ?_, ?_⟩
  · rw [← hpv]
  · rw [← hpv]
    exact List.fst_lt_of_mem_enum hp

/-- Stable descending insertion adds no new elements. -/
theorem mem_insertDesc {v x : VacEntry} :
    ∀ l : List VacEntry, x ∈ insertDesc v l → x = v ∨ x ∈ l := by
  intro l
  induction l with
  | nil => intro h; simpa [insertDesc] using h
  | cons w ws ih =>
    intro h
    by_cases hc : (w.len ≤ v.len)
    · rw [insertDesc, if_pos (by simpa using hc)] at h
      rcases List.mem_cons.mp h with h | h
      · exact Or.inl h
      · exact Or.inr h
    · rw [insertDesc, if_neg (by simpa using hc)] at h
      rcases List.mem_cons.mp h with h | h
      · exact Or.inr (by simp [h])
      · rcases ih h with h | h
        · exact Or.inl h
        · exact Or.inr (by simp [h])

/-- Sorting keeps the elements of the vacation list. -/
theorem mem_sortVacationsDesc {x : VacEntry} :
    ∀ l : List VacEntry, x ∈ sortVacationsDesc l → x ∈ l := by
  intro l
  induction l with
  | nil => intro h; simp [sortVacationsDesc] at h
  | cons a t ih =>
    intro h
    rcases mem_insertDesc (sortVacationsDesc t) h with h | h
    · simp [h]
    · simp [ih h]

/-- Any success of the release loop that starts with a nonempty released
list, or whose first entry can fire, is annotated with a nonempty released
list. -/
theorem releaseLoop_message (oracle : SolverOracle) (maxTol timeLimit : Nat) :
    ∀ (entries : List VacEntry) (c : ScheduleConfig) (stats : PoolStats)
      (released : List (String × Date × Date)) (r : ScheduleResult),
      releaseLoop oracle maxTol timeLimit c stats released entries = r → r.success = true →
      (released ≠ [] ∨ ∃ v rest, entries = v :: rest ∧ ∃ e ∈ c.employees,
        e.name = v.emp ∧ v.idx < e.vacation_ranges.length) →
      ∃ l, l ≠ [] ∧ r.error_message = ErrMsg.releasedVacations l := by
  intro entries
  induction entries with
  | nil =>
    intro c stats released r h hs _
    rw [← h] at hs
    simp [releaseLoop, mkFailure] at hs
  | cons v rest ih =>
    intro c stats released r h hs hstart
    have hne : (if (releaseFirst v c.employees).2 then
        released ++ [(v.emp, v.vstart, v.vend)] else released) ≠ [] := by
      rcases hstart with hstart | hstart
      · by_cases hf : (releaseFirst v c.employees).2 = true
        · rw [if_pos hf]; simp
        · rw [if_neg hf]; exact hstart
      · obtain ⟨v', rest', hvr, hval⟩ := hstart
        have hv : v' = v := by
          have := congrArg (fun l => l.head?) hvr
          simpa using this.symm
        rw [hv] at hval
        rw [if_pos (releaseFirst_fires v c.employees hval)]
        simp
    simp only [releaseLoop] at h
    split at h
    · rename_i r₀ htry
      rw [if_neg (by simpa using hne)] at h
      rw [← h]
      exact ⟨_, hne, rfl⟩
    · exact ih _ _ _ r h hs (Or.inl hne)

/-- Claim C10 (implicit): when the tolerance loop over the original
configuration finds nothing but solve_schedule nevertheless succeeds, the
successful result carries the released-vacation annotation in its
error_message field, which is therefore nonempty despite success. -/
theorem claim10_success_with_message (oracle : SolverOracle) (c : ScheduleConfig)
    (M T : Nat)
    (hphase1 : tryTolerances oracle c (computePoolStats c) M (timePerTolerance T M) = none)
    (hs : (solve_schedule oracle c M T).success = true) :
    ∃ l, l ≠ [] ∧
      (solve_schedule oracle c M T).error_message = ErrMsg.releasedVacations l := by
  obtain ⟨r, hr⟩ : ∃ r, solve_schedule oracle c M T = r := ⟨_, rfl⟩
  rw [hr] at hs
  rw [hr]
  simp only [solve_schedule] at hr
  split at hr
  · rw [← hr] at hs; simp [mkFailure] at hs
  · split at hr
    · rw [← hr] at hs; simp [mkFailure] at hs
    · split at hr
      · rw [← hr] at hs; simp [mkFailure] at hs
      · split at hr
        · rw [← hr] at hs; simp [mkFailure] at hs
        · split at hr
          · rename_i r₀ htry
            rw [hphase1] at htry
            cases htry
          · rcases hentries : sortVacationsDesc (collectVacations c) with _ | ⟨v, rest⟩
            · rw [hentries] at hr
              rw [← hr] at hs
              simp [releaseLoop, mkFailure] at hs
            · have hval : ∃ e ∈ c.employees, e.name = v.emp ∧
                  v.idx < e.vacation_ranges.length := by
                apply collectVacations_valid c v
                apply mem_sortVacationsDesc
                rw [hentries]
                simp
              rw [hentries] at hr
              exact releaseLoop_message oracle M T _ c _ [] r hr hs
                (Or.inr ⟨v, rest, rfl, hval⟩)

/-- Witness for claim C10: the oracle only solves the configuration with
the vacation of A released, so success arrives annotated. -/
theorem claim10_witness :
    tryTolerances exOracleFull exCfg10 (computePoolStats exCfg10) 1
      (timePerTolerance 60 1) = none ∧
    (solve_schedule exOracleFull exCfg10 1 60).success = true ∧
    (∃ l, l ≠ [] ∧
      (solve_schedule exOracleFull exCfg10 1 60).error_message =
        ErrMsg.releasedVacations l) :=
  ⟨by decide, by decide,
    claim10_success_with_message exOracleFull exCfg10 1 60 (by decide) (by decide)⟩

/-- A failing prefix of tolerances is skipped. -/
theorem tryList_append_of_fail (oracle : SolverOracle) (c : ScheduleConfig)
    (stats : PoolStats) (t : Nat) :
    ∀ l₁ l₂, (∀ tol ∈ l₁, (solveWithTolerance oracle c stats tol t).success = false) →
      tryList oracle c stats t (l₁ ++ l₂) = tryList oracle c stats t l₂ := by
  intro l₁
  induction l₁ with
  | nil => intro l₂ _; rfl
  | cons a l ih =>
    intro l₂ hfail
    have ha := hfail a (by simp)
    simp only [List.cons_append, tryList, ha]
    exact ih l₂ (fun tol htol => hfail tol (by simp [htol]))

/-- The ascending range from 1 to M splits at the first succeeding
tolerance. -/
theorem range1_split (m tol₀ : Nat) (h1 : 1 ≤ tol₀) (h2 : tol₀ ≤ m) :
    List.range' 1 m = List.range' 1 (tol₀ - 1) ++ List.range' tol₀ (m - tol₀ + 1) := by
  have h3 : 1 + 1 * (tol₀ - 1) = tol₀ := by omega
  have h4 : (m - tol₀ + 1) + (tol₀ - 1) = m := by omega
  have := List.range'_append 1 (tol₀ - 1) (m - tol₀ + 1) 1
  rw [h3, h4] at this
  exact this.symm

/-- The tolerance loop stops at the least succeeding tolerance. -/
theorem tryTolerances_first_success (oracle : SolverOracle) (c : ScheduleConfig)
    (stats : PoolStats) (m t tol₀ : Nat) (h1 : 1 ≤ tol₀) (h2 : tol₀ ≤ m)
    (hsucc : (solveWithTolerance oracle c stats tol₀ t).success = true)
    (hfail : ∀ tol, 1 ≤ tol → tol < tol₀ →
      (solveWithTolerance oracle c stats tol t).success = false) :
    tryTolerances oracle c stats m t = some (solveWithTolerance oracle c stats tol₀ t) := by
  unfold tryTolerances
  rw [range1_split m tol₀ h1 h2]
  rw [tryList_append_of_fail oracle c stats t _ _ (by
    intro tol htol
    have := List.mem_range'_1.mp htol
    exact hfail tol this.1 (by omega))]
  have : m - tol₀ + 1 = (m - tol₀) + 1 := rfl
  rw [this, List.range'_succ]
  simp only [tryList, hsucc, if_pos]

/-- Claim C5: with the capacity guards passing, the search attempts
tolerances 1, 2, ... in ascending order with a per-attempt time slice of
max(30, T / M); the first satisfying or optimal attempt (the least
succeeding tolerance) ends the search with success, carrying that
tolerance as tolerance_used, and the outcome is unchanged under any oracle
that agrees up to that tolerance, so no later tolerance is consulted. -/
theorem claim5_tolerance_search (oracle : SolverOracle) (c : ScheduleConfig) (M T : Nat)
    (hemp : c.employees ≠ []) (hdates : c.get_all_dates ≠ [])
    (hwd : ¬((computePoolStats c).remaining_weekdays < 0))
    (hwe : ¬((computePoolStats c).remaining_weekends_effective < 0))
    (tol₀ : Nat) (h1 : 1 ≤ tol₀) (h2 : tol₀ ≤ M)
    (hsucc : (solveWithTolerance oracle c (computePoolStats c) tol₀
      (timePerTolerance T M)).success = true)
    (hfail : ∀ tol, 1 ≤ tol → tol < tol₀ →
      (solveWithTolerance oracle c (computePoolStats c) tol
        (timePerTolerance T M)).success = false) :
    solve_schedule oracle c M T =
      solveWithTolerance oracle c (computePoolStats c) tol₀ (timePerTolerance T M) ∧
    (solve_schedule oracle c M T).tolerance_used = tol₀ ∧
    (solve_schedule oracle c M T).success = true ∧
    timePerTolerance T M = max 30 (T / M) ∧
    (∀ oracle' : SolverOracle,
      (∀ c₂ tol t, tol ≤ tol₀ → oracle' c₂ tol t = oracle c₂ tol t) →
      solve_schedule oracle' c M T = solve_schedule oracle c M T) := by
  have htry := tryTolerances_first_success oracle c (computePoolStats c) M
    (timePerTolerance T M) tol₀ h1 h2 hsucc hfail
  have hmain : solve_schedule oracle c M T =
      solveWithTolerance oracle c (computePoolStats c) tol₀ (timePerTolerance T M) := by
    simp only [solve_schedule]
    rw [if_neg (by simpa using hemp), if_neg (by simpa using hdates),
      if_neg hwd, if_neg hwe, htry]
  refine ⟨hmain, ?_, ?_, rfl, ?_⟩
  · rw [hmain]
    exact solveWithTolerance_tolerance oracle c (computePoolStats c) tol₀
      (timePerTolerance T M)
  · rw [hmain]
    exact hsucc
  · intro oracle' hagree
    have hatt : ∀ tol t', tol ≤ tol₀ →
        solveWithTolerance oracle' c (computePoolStats c) tol t' =
          solveWithTolerance oracle c (computePoolStats c) tol t' := by
      intro tol t' htl
      unfold solveWithTolerance
      rw [hagree c tol t' htl]
    have htry' := tryTolerances_first_success oracle' c (computePoolStats c) M
      (timePerTolerance T M) tol₀ h1 h2
      (by rw [hatt tol₀ _ (Nat.le_refl tol₀)]; exact hsucc)
      (by intro tol ha hb
          rw [hatt tol _ (by omega)]
          exact hfail tol ha hb)
    have hmain' : solve_schedule oracle' c M T =
        solveWithTolerance oracle' c (computePoolStats c) tol₀ (timePerTolerance T M) := by
      simp only [solve_schedule]
      rw [if_neg (by simpa using hemp), if_neg (by simpa using hdates),
        if_neg hwd, if_neg hwe, htry']
    rw [hmain', hmain, hatt tol₀ _ (Nat.le_refl tol₀)]

/-- Witness for claim C5 at scenario 1 with the least succeeding tolerance
equal to 1. -/
theorem claim5_witness :
    exCfg1.employees ≠ [] ∧ exCfg1.get_all_dates ≠ [] ∧
    ¬((computePoolStats exCfg1).remaining_weekdays < 0) ∧
    ¬((computePoolStats exCfg1).remaining_weekends_effective < 0) ∧
    (solveWithTolerance exOracle1 exCfg1 (computePoolStats exCfg1) 1
      (timePerTolerance 60 1)).success = true ∧
    (solve_schedule exOracle1 exCfg1 1 60 =
      solveWithTolerance exOracle1 exCfg1 (computePoolStats exCfg1) 1
        (timePerTolerance 60 1) ∧
     (solve_schedule exOracle1 exCfg1 1 60).tolerance_used = 1 ∧
     (solve_schedule exOracle1 exCfg1 1 60).success = true ∧
     timePerTolerance 60 1 = max 30 (60 / 1) ∧
     (∀ oracle' : SolverOracle,
       (∀ c₂ tol t, tol ≤ 1 → oracle' c₂ tol t = exOracle1 c₂ tol t) →
       solve_schedule oracle' exCfg1 1 60 = solve_schedule exOracle1 exCfg1 1 60)) :=
  ⟨by decide, by decide, by decide, by decide, by decide,
    claim5_tolerance_search exOracle1 exCfg1 1 60 (by decide) (by decide) (by decide)
      (by decide) 1 (by decide) (by decide) (by decide)
      (by intro tol ha hb; omega)⟩

/-- Claim C6 evaluated at a failing input.  Employee A holds two vacations,
(1, 3) at index 0 and (5, 5) at index 1; the release order is the long one
first.  Removing index 0 shrinks the list to one element, so the saved
index 1 of the second entry fails the length guard and the second vacation
is never removed: after processing every entry, A still holds (5, 5).  A
fully feasible solution exists for the completely released configuration
and the oracle returns it there, yet solve_schedule ends in the terminal
failure instead of the success the claimed release procedure would reach. -/
theorem claim6_release_index_bug :
    hardConstraints exCfgFull (computePoolStats exCfgFull) 1 exSolFull = true ∧
    (solveWithTolerance exOracleFull exCfgFull (computePoolStats exCfgFull) 1
      60).success = true ∧
    sortVacationsDesc (collectVacations exCfgBug) =
      [{ emp := nA, idx := 0, len := 3, vstart := 1, vend := 3 },
       { emp := nA, idx := 1, len := 1, vstart := 5, vend := 5 }] ∧
    (releaseFirst { emp := nA, idx := 1, len := 1, vstart := 5, vend := 5 }
      (releaseFirst { emp := nA, idx := 0, len := 3, vstart := 1, vend := 3 }
        exCfgBug.employees).1).2 = false ∧
    ((releaseFirst { emp := nA, idx := 1, len := 1, vstart := 5, vend := 5 }
      (releaseFirst { emp := nA, idx := 0, len := 3, vstart := 1, vend := 3 }
        exCfgBug.employees).1).1.map (fun e => e.vacation_ranges)) = [[(5, 5)], []] ∧
    (solve_schedule exOracleFull exCfgBug 1 60).success = false ∧
    (solve_schedule exOracleFull exCfgBug 1 60).error_message =
      ErrMsg.couldNotFindFeasible 1 :=
  ⟨by decide, by decide, by decide, by decide, by decide, by decide, by decide⟩

end Piket
